import Mathlib

/-!
Verification of the orbit deployment-watch engine against its specification.

The definitions below are a shallow embedding of the Go source:

* `internal/platform` — the normalized data model (`Deploy`, `DeployEvent`),
  the vendor status mappers (`mapVercelState`, `mapKoyebStatus`,
  `mapKoyebDeployStatus`), the watch-phase mappers, `isInProgress`, and the
  per-adapter `WatchDeployment`/`trackDeployment` polling loops (modelled as
  functions over the sequence of poll results).
* `cmd/watch.go` — the single-service watch session (`watchSingleService`,
  `watchSingleServiceQuiet`, modelled as functions over the sequence of
  select-loop inputs), the multi-service exit-code reduction of `runWatch`
  (`reduceExitCodes`), and the JSON payload builder (`resultToJSON`).
* `cmd/topology.go` — `setTopologyOrder`.
* `internal/config/crypto.go` — `Encrypt` / `Decrypt` / `IsEncrypted` over
  AES-256-GCM and base64, with the Go standard library cipher modelled
  concretely (FIPS-197 AES, NIST SP 800-38D GCM, RFC 4648 base64).

Time-driven behaviour (deadline timers, elapsed clocks) is modelled by
tagging every loop input with the elapsed seconds at which it is processed;
bytes are `Nat` with explicit `% 256` where machine-width overflow matters.
-/

namespace Orbit

/-- Watch exit codes (`cmd/watch.go`). -/
def exitSuccess : Nat := 0

/-- Exit code for a failed build/deploy. -/
def exitFailed : Nat := 1

/-- Exit code when no new deployment was detected. -/
def exitNoDeployment : Nat := 2

/-- Exit code when the deploy is still in progress at the overall deadline. -/
def exitTimeout : Nat := 3

/-- Detection-phase timeout in seconds (`detectTimeout = 60 * time.Second`). -/
def detectTimeoutSec : Nat := 60

/-- Poll interval in seconds (`pollInterval = 3 * time.Second` in the adapters). -/
def pollIntervalSec : Nat := 3

/-- Model of `platform.Deployment`: a normalized deployment snapshot. -/
structure Deploy where
  id : String := ""
  status : String := ""
  commit : String := ""
  message : String := ""
  createdAt : Nat := 0
  durationSec : Nat := 0
  url : String := ""
deriving DecidableEq, Repr

/-- Model of `platform.DeployEvent`: a real-time deployment state change.
`error` is `Option String` for the Go `error` field. -/
structure DeployEvent where
  phase : String := ""
  message : String := ""
  deploy : Option Deploy := none
  error : Option String := none
  logs : List String := []
deriving DecidableEq, Repr

/-- Model of `cmd.watchResult`: the outcome of watching a single service.
Durations are held in whole seconds. -/
structure WatchResult where
  serviceName : String := ""
  platform : String := ""
  exitCode : Nat := 0
  deployID : String := ""
  commit : String := ""
  message : String := ""
  durationSec : Nat := 0
  status : String := ""
  phase : String := ""
  url : String := ""
  error : String := ""
  logs : List String := []
  waitedSec : Nat := 0
deriving DecidableEq, Repr

/-- The four terminal outcome kinds of a watch session (§4.4 of the spec). -/
inductive OutcomeKind where
  | success
  | failed
  | noDeployment
  | timeout
deriving DecidableEq, Repr

/-- The exit code of each outcome kind, per the constants in `cmd/watch.go`. -/
def OutcomeKind.exitCode : OutcomeKind → Nat
  | .success => exitSuccess
  | .failed => exitFailed
  | .noDeployment => exitNoDeployment
  | .timeout => exitTimeout

/-- The exit-code reduction of `runWatch` (`cmd/watch.go`): first take the
numerically largest exit code, then override with `exitFailed` if any result
failed. -/
def reduceExitCodes (codes : List Nat) : Nat :=
  let worst := codes.foldl (fun w c => if c > w then c else w) exitSuccess
  if codes.any (fun c => c = exitFailed) then exitFailed else worst

/-- Model of `mapVercelState` (`internal/platform/vercel.go`): Vercel deployment state
to normalized status; unknown states pass through. -/
def mapVercelState (state : String) : String :=
  if state = "READY" then "healthy"
  else if state = "BUILDING" then "building"
  else if state = "DEPLOYING" ∨ state = "INITIALIZING" ∨ state = "QUEUED" then "deploying"
  else if state = "ERROR" ∨ state = "CANCELED" then "failed"
  else state

/-- Model of `mapKoyebStatus`: Koyeb service status to normalized status; unknown
statuses pass through. -/
def mapKoyebStatus (status : String) : String :=
  if status = "HEALTHY" then "healthy"
  else if status = "DEGRADED" then "degraded"
  else if status = "UNHEALTHY" ∨ status = "ERROR" then "unhealthy"
  else if status = "SLEEPING" ∨ status = "PAUSED" ∨ status = "PAUSING" then "sleeping"
  else if status = "STARTING" ∨ status = "PROVISIONING" then "building"
  else status

/-- Model of `mapKoyebDeployStatus`: Koyeb deployment status to normalized status;
unknown statuses pass through. -/
def mapKoyebDeployStatus (status : String) : String :=
  if status = "PENDING" ∨ status = "QUEUED" then "pending"
  else if status = "PROVISIONING" ∨ status = "SCHEDULED" then "building"
  else if status = "DEPLOYING" ∨ status = "STARTING" then "deploying"
  else if status = "HEALTHY" then "healthy"
  else if status = "DEGRADED" then "degraded"
  else if status = "UNHEALTHY" ∨ status = "ERROR" ∨ status = "ERRORING" then "failed"
  else if status = "STOPPED" ∨ status = "SLEEPING" then "sleeping"
  else status

/-- The vendor strings handled by a non-default case of `mapVercelState`. -/
def knownVercelStates : List String :=
  ["READY", "BUILDING", "DEPLOYING", "INITIALIZING", "QUEUED", "ERROR", "CANCELED"]

/-- The vendor strings handled by a non-default case of `mapKoyebStatus`. -/
def knownKoyebStatuses : List String :=
  ["HEALTHY", "DEGRADED", "UNHEALTHY", "ERROR", "SLEEPING", "PAUSED", "PAUSING",
   "STARTING", "PROVISIONING"]

/-- The vendor strings handled by a non-default case of `mapKoyebDeployStatus`. -/
def knownKoyebDeployStatuses : List String :=
  ["PENDING", "QUEUED", "PROVISIONING", "SCHEDULED", "DEPLOYING", "STARTING",
   "HEALTHY", "DEGRADED", "UNHEALTHY", "ERROR", "ERRORING", "STOPPED", "SLEEPING"]

/-- Model of `platform.isInProgress`: whether a normalized deployment status is a
non-terminal, in-progress state. -/
def isInProgress (status : String) : Bool :=
  status = "building" ∨ status = "deploying" ∨ status = "pending"

/-- Model of `mapVercelToWatchPhase` (`internal/platform/vercel.go`): normalized status
to watch phase, defaulting to `building`. -/
def mapVercelToWatchPhase (status : String) : String :=
  if status = "building" then "building"
  else if status = "deploying" then "deploying"
  else if status = "healthy" then "done"
  else if status = "failed" then "failed"
  else "building"

/-- Model of `mapKoyebToWatchPhase` (`internal/platform/koyeb.go`): normalized status
to watch phase, defaulting to `building`. -/
def mapKoyebToWatchPhase (status : String) : String :=
  if status = "pending" then "building"
  else if status = "building" then "building"
  else if status = "deploying" then "deploying"
  else if status = "healthy" then "done"
  else if status = "degraded" then "done"
  else if status = "failed" then "failed"
  else if status = "sleeping" then "done"
  else "building"

/-- One input consumed by the `select` loop of a watch session: a deadline
timer firing, the adapter's event channel closing, or an adapter event
arriving. `elapsed` is `int(time.Since(startTime).Seconds())` at the moment
the branch runs. -/
inductive WatchInput where
  | detectDeadline (elapsed : Nat)
  | overallDeadline (elapsed : Nat)
  | chanClosed
  | chanEvent (e : DeployEvent) (elapsed : Nat)
deriving DecidableEq, Repr

/-- The `for { select { ... } }` loop of `watchSingleService` (`cmd/watch.go`),
as a function of the sequence of loop inputs. `none` means the trace ended
with the session still blocked (the Go loop would keep waiting). -/
def watchLoop (currentDeployID : String) :
    Bool → WatchResult → List WatchInput → Option WatchResult
  | _, _, [] => none
  | detected, result, input :: rest =>
    match input with
    | .detectDeadline elapsed =>
      if !detected then
        some { result with
          exitCode := exitNoDeployment
          waitedSec := elapsed
          error := "No new deployment detected"
          deployID := if currentDeployID ≠ "" then currentDeployID else result.deployID }
      else watchLoop currentDeployID detected result rest
    | .overallDeadline elapsed =>
      if !detected then
        some { result with
          exitCode := exitNoDeployment
          waitedSec := elapsed
          error := "No new deployment detected" }
      else
        some { result with
          exitCode := exitTimeout
          error := s!"Deploy still in progress after {elapsed}s" }
    | .chanClosed =>
      if result.exitCode = 0 ∧ !detected then
        some { result with exitCode := exitNoDeployment, error := "Watch ended unexpectedly" }
      else some result
    | .chanEvent e elapsed =>
      if e.phase = "waiting" then
        watchLoop currentDeployID detected result rest
      else if e.phase = "detected" then
        let result :=
          match e.deploy with
          | some d => { result with deployID := d.id, commit := d.commit, message := d.message }
          | none => result
        watchLoop currentDeployID true result rest
      else if e.phase = "building" then
        watchLoop currentDeployID detected { result with phase := "building" } rest
      else if e.phase = "deploying" then
        watchLoop currentDeployID detected { result with phase := "deploying" } rest
      else if e.phase = "healthcheck" then
        watchLoop currentDeployID detected { result with phase := "healthcheck" } rest
      else if e.phase = "done" then
        let result := { result with
          exitCode := exitSuccess, phase := "done", durationSec := elapsed }
        some (match e.deploy with
          | some d => { result with
              status := d.status
              url := d.url
              deployID := if result.deployID = "" then d.id else result.deployID }
          | none => result)
      else if e.phase = "failed" then
        let result := { result with
          exitCode := exitFailed, phase := e.phase, durationSec := elapsed }
        let result :=
          match e.error with
          | some msg => { result with error := msg }
          | none => result
        let result := { result with logs := e.logs }
        some (match e.deploy with
          | some d => { result with
              status := d.status
              deployID := if result.deployID = "" then d.id else result.deployID }
          | none => result)
      else
        watchLoop currentDeployID detected result rest

/-- The `for { select { ... } }` loop of `watchSingleServiceQuiet`
(`cmd/watch.go`): same state machine as `watchLoop`, but the quiet variant
does not copy the baseline id into the result on the detect-deadline exit and
does not read the deployment payload of `done`/`failed` events for the
deploy-id fallback or failure status. -/
def watchLoopQuiet :
    Bool → WatchResult → List WatchInput → Option WatchResult
  | _, _, [] => none
  | detected, result, input :: rest =>
    match input with
    | .detectDeadline elapsed =>
      if !detected then
        some { result with
          exitCode := exitNoDeployment
          waitedSec := elapsed
          error := "No new deployment detected" }
      else watchLoopQuiet detected result rest
    | .overallDeadline elapsed =>
      if !detected then
        some { result with
          exitCode := exitNoDeployment
          waitedSec := elapsed
          error := "No new deployment detected" }
      else
        some { result with
          exitCode := exitTimeout
          error := s!"Deploy still in progress after {elapsed}s" }
    | .chanClosed =>
      if result.exitCode = 0 ∧ !detected then
        some { result with exitCode := exitNoDeployment, error := "Watch ended unexpectedly" }
      else some result
    | .chanEvent e elapsed =>
      if e.phase = "detected" then
        let result :=
          match e.deploy with
          | some d => { result with deployID := d.id, commit := d.commit, message := d.message }
          | none => result
        watchLoopQuiet true result rest
      else if e.phase = "building" then
        watchLoopQuiet detected { result with phase := "building" } rest
      else if e.phase = "deploying" then
        watchLoopQuiet detected { result with phase := "deploying" } rest
      else if e.phase = "healthcheck" then
        watchLoopQuiet detected { result with phase := "healthcheck" } rest
      else if e.phase = "done" then
        let result := { result with
          exitCode := exitSuccess, phase := "done", durationSec := elapsed }
        some (match e.deploy with
          | some d => { result with status := d.status, url := d.url }
          | none => result)
      else if e.phase = "failed" then
        let result := { result with
          exitCode := exitFailed, phase := e.phase, durationSec := elapsed }
        let result :=
          match e.error with
          | some msg => { result with error := msg }
          | none => result
        some { result with logs := e.logs }
      else
        watchLoopQuiet detected result rest

/-- The baseline deployment id: `deploys[0].ID` if any, else `""`. -/
def baselineID (deploys : List Deploy) : String :=
  match deploys with
  | [] => ""
  | d :: _ => d.id

/-- Model of `cmd.watchSingleService`: the initial `ListDeployments` call, the
`WatchDeployment` channel setup, then the select loop. The two fallible
adapter calls are passed as their results; the loop inputs as a trace. -/
def watchSingleService (serviceName platformName : String)
    (listDeployments : Except String (List Deploy))
    (watchSetup : Except String Unit)
    (trace : List WatchInput) : Option WatchResult :=
  let result : WatchResult := { serviceName := serviceName, platform := platformName }
  match listDeployments with
  | .error e => some { result with exitCode := exitFailed, error := s!"list deployments: {e}" }
  | .ok deploys =>
    match watchSetup with
    | .error e => some { result with exitCode := exitFailed, error := s!"watch: {e}" }
    | .ok _ => watchLoop (baselineID deploys) false result trace

/-- Model of `cmd.watchSingleServiceQuiet`: as `watchSingleService` but driving the
quiet loop. -/
def watchSingleServiceQuiet (serviceName platformName : String)
    (listDeployments : Except String (List Deploy))
    (watchSetup : Except String Unit)
    (trace : List WatchInput) : Option WatchResult :=
  let result : WatchResult := { serviceName := serviceName, platform := platformName }
  match listDeployments with
  | .error e => some { result with exitCode := exitFailed, error := s!"list deployments: {e}" }
  | .ok _deploys =>
    match watchSetup with
    | .error e => some { result with exitCode := exitFailed, error := s!"watch: {e}" }
    | .ok _ => watchLoopQuiet false result trace

/-- The body of `trackDeployment` (both adapters share this structure, with
their own phase mapper and error-log fetcher): poll `GetDeployment`, map the
status to a watch phase, emit an event only when the phase changed, stop on
`done`/`failed`. The input list is the sequence of poll results; the output
is the sequence of events sent on the channel. -/
def trackRun (mapPhase : String → String)
    (getErrors : String → Except String (List String)) :
    String → List (Except String Deploy) → List DeployEvent
  | _, [] => []
  | _, .error e :: _ =>
    [{ phase := "failed", error := some s!"get deployment: {e}" }]
  | lastPhase, .ok d :: rest =>
    let deployID := d.id
    let phase := mapPhase d.status
    if phase = lastPhase then trackRun mapPhase getErrors lastPhase rest
    else if phase = "done" then
      [{ phase := phase, message := "Deploy successful!", deploy := some d }]
    else if phase = "failed" then
      let ev : DeployEvent := { phase := phase
                                message := "Deployment failed!"
                                deploy := some d
                                error := some s!"deployment {deployID} failed" }
      let ev := match getErrors d.id with
        | .ok logs => { ev with logs := logs }
        | .error _ => ev
      [ev]
    else
      let msg :=
        if phase = "building" then "Building..."
        else if phase = "deploying" then "Deploying..."
        else if phase = "healthcheck" then "Health check..."
        else ""
      { phase := phase, message := msg, deploy := some d }
        :: trackRun mapPhase getErrors phase rest

/-- Go `(*Vercel).trackDeployment` instantiates the tracking loop with the
Vercel phase mapper. -/
def vercelTrackDeployment (getErrors : String → Except String (List String))
    (lastPhase : String) (polls : List (Except String Deploy)) : List DeployEvent :=
  trackRun mapVercelToWatchPhase getErrors lastPhase polls

/-- Go `(*Koyeb).trackDeployment` instantiates the tracking loop with the
Koyeb phase mapper. -/
def koyebTrackDeployment (getErrors : String → Except String (List String))
    (lastPhase : String) (polls : List (Except String Deploy)) : List DeployEvent :=
  trackRun mapKoyebToWatchPhase getErrors lastPhase polls

/-- The detection loop shared by both adapters' `WatchDeployment` goroutines:
poll `ListDeployments(serviceID, 1)`; if the most recent id differs from the
baseline, emit `detected` and hand that deployment to tracking; otherwise
emit `waiting` and poll again. Returns the emitted events and the deployment
chosen for tracking (if any). -/
def detectLoop (currentDeployID : String) :
    List (Except String (List Deploy)) → List DeployEvent × Option Deploy
  | [] => ([], none)
  | .error e :: _ =>
    ([{ phase := "failed", error := some s!"poll deployments: {e}" }], none)
  | .ok deploys :: rest =>
    match deploys with
    | d :: _ =>
      if d.id ≠ currentDeployID then
        let deployID := d.id
        ([{ phase := "detected"
            message := s!"New deployment detected! ({deployID})"
            deploy := some d }], some d)
      else
        let next := detectLoop currentDeployID rest
        ({ phase := "waiting", message := "Waiting for new deployment..." } :: next.1, next.2)
    | [] =>
      let next := detectLoop currentDeployID rest
      ({ phase := "waiting", message := "Waiting for new deployment..." } :: next.1, next.2)

/-- Detection followed by tracking: the composition both `WatchDeployment`
goroutines run after any adapter-specific preamble. -/
def detectTrack (mapPhase : String → String)
    (getErrors : String → Except String (List String)) (currentDeployID : String)
    (listPolls : List (Except String (List Deploy)))
    (getPolls : List (Except String Deploy)) : List DeployEvent :=
  let found := detectLoop currentDeployID listPolls
  match found.2 with
  | some _ => found.1 ++ trackRun mapPhase getErrors "" getPolls
  | none => found.1

/-- Model of `(*Koyeb).WatchDeployment`: the goroutine goes straight into the
detection loop — there is no in-progress baseline pre-check. -/
def koyebWatchDeployment (currentDeployID : String)
    (listPolls : List (Except String (List Deploy)))
    (getPolls : List (Except String Deploy))
    (getErrors : String → Except String (List String)) : List DeployEvent :=
  detectTrack mapKoyebToWatchPhase getErrors currentDeployID listPolls getPolls

/-- Model of `(*Vercel).WatchDeployment`: the goroutine first checks whether the most
recent deployment is already in progress (race with a just-finished push) and
tracks it immediately; otherwise it runs the detection loop on the following
polls. -/
def vercelWatchDeployment (currentDeployID : String)
    (listPolls : List (Except String (List Deploy)))
    (getPolls : List (Except String Deploy))
    (getErrors : String → Except String (List String)) : List DeployEvent :=
  match listPolls with
  | [] => []
  | .error e :: _ =>
    [{ phase := "failed", error := some s!"poll deployments: {e}" }]
  | .ok deploys :: restPolls =>
    match deploys with
    | d :: _ =>
      if isInProgress d.status then
        let deployID := d.id
        { phase := "detected"
          message := s!"In-progress deployment found ({deployID})"
          deploy := some d }
          :: trackRun mapVercelToWatchPhase getErrors "" getPolls
      else
        detectTrack mapVercelToWatchPhase getErrors currentDeployID
          (.ok deploys :: restPolls) getPolls
    | [] =>
      detectTrack mapVercelToWatchPhase getErrors currentDeployID
        (.ok deploys :: restPolls) getPolls

/-- Model of `(*Supabase).WatchDeployment`: returns no channel and an immediate
"not supported" error. -/
def supabaseWatchDeployment (_serviceID _currentDeployID : String) : Except String Unit :=
  .error "not supported: supabase does not support deployment watching"

/-- Model of `cmd.watchJSON`: the structured output payload. Zero-valued fields are
omitted from the serialized object (every field but `result` is tagged
`omitempty`). -/
structure WatchJSON where
  result : String := ""
  service : String := ""
  platform : String := ""
  deployID : String := ""
  commit : String := ""
  durationSec : Nat := 0
  status : String := ""
  phase : String := ""
  url : String := ""
  error : String := ""
  logs : List String := []
  currentDeployID : String := ""
  waitedSec : Nat := 0
  reason : String := ""
  elapsedSec : Nat := 0
deriving DecidableEq, Repr

/-- Model of `cmd.resultToJSON`: build the JSON payload from a watch result. -/
def resultToJSON (r : WatchResult) : WatchJSON :=
  let j : WatchJSON := { service := r.serviceName
                         platform := r.platform
                         deployID := r.deployID
                         commit := r.commit
                         status := r.status
                         url := r.url }
  if r.exitCode = exitSuccess then
    { j with result := "success"
             durationSec := r.durationSec
             status := if j.status = "" then "healthy" else j.status }
  else if r.exitCode = exitFailed then
    { j with result := "failed"
             durationSec := r.durationSec
             phase := r.phase
             error := r.error
             logs := r.logs }
  else if r.exitCode = exitNoDeployment then
    { j with result := "no_deployment"
             currentDeployID := r.deployID
             deployID := ""
             waitedSec := r.waitedSec
             reason := "No new deployment detected" }
  else if r.exitCode = exitTimeout then
    { j with result := "timeout"
             phase := r.phase
             elapsedSec := if r.durationSec = 0 then r.waitedSec else r.durationSec }
  else j

/-- The JSON keys `encoding/json` emits for a `watchJSON` value, in struct
order: `result` is always present, every other field carries `omitempty` and
is dropped at its zero value. -/
def watchJSONKeys (j : WatchJSON) : List String :=
  ["result"]
  ++ (if j.service ≠ "" then ["service"] else [])
  ++ (if j.platform ≠ "" then ["platform"] else [])
  ++ (if j.deployID ≠ "" then ["deploy_id"] else [])
  ++ (if j.commit ≠ "" then ["commit"] else [])
  ++ (if j.durationSec ≠ 0 then ["duration_sec"] else [])
  ++ (if j.status ≠ "" then ["status"] else [])
  ++ (if j.phase ≠ "" then ["phase"] else [])
  ++ (if j.url ≠ "" then ["url"] else [])
  ++ (if j.error ≠ "" then ["error"] else [])
  ++ (if j.logs ≠ [] then ["logs"] else [])
  ++ (if j.currentDeployID ≠ "" then ["current_deploy_id"] else [])
  ++ (if j.waitedSec ≠ 0 then ["waited_sec"] else [])
  ++ (if j.reason ≠ "" then ["reason"] else [])
  ++ (if j.elapsedSec ≠ 0 then ["elapsed_sec"] else [])

/-- Model of `config.ServiceEntry`: one service in a project topology. -/
structure ServiceEntry where
  name : String := ""
  platform : String := ""
  id : String := ""
deriving DecidableEq, Repr

instance : Inhabited ServiceEntry := ⟨{}⟩

/-- Model of `cmd.joinNames`: comma-join, `"(none)"` when empty. -/
def joinNames (names : List String) : String :=
  match names with
  | [] => "(none)"
  | n :: rest => rest.foldl (fun acc m => acc ++ ", " ++ m) n

/-- Model of `strings.ReplaceAll(input, "→", "->")` at the character level. -/
def replaceArrow : List Char → List Char
  | [] => []
  | c :: rest => if c = '→' then '-' :: '>' :: replaceArrow rest else c :: replaceArrow rest

/-- Model of `strings.Split(input, "->")` at the character level: left-to-right,
non-overlapping. -/
def splitOnArrow : List Char → List (List Char)
  | [] => [[]]
  | '-' :: '>' :: rest => [] :: splitOnArrow rest
  | c :: rest =>
    match splitOnArrow rest with
    | [] => [[c]]
    | g :: gs => (c :: g) :: gs

/-- The whitespace recognized by the model of `strings.TrimSpace`. -/
def isSpaceChar (c : Char) : Bool :=
  c = ' ' ∨ c = '\t' ∨ c = '\n' ∨ c = '\r'

/-- Model of `strings.TrimSpace` at the character level. -/
def trimChars (l : List Char) : List Char :=
  ((l.dropWhile isSpaceChar).reverse.dropWhile isSpaceChar).reverse

/-- The parsing step of `setTopologyOrder` (`cmd/topology.go`): replace `→`
with `->`, split on `->`, trim each part, and drop empty parts. -/
def parseTopologyNames (input : String) : List String :=
  (((splitOnArrow (replaceArrow input.data)).map
    (fun l => String.mk (trimChars l))).filter (fun n => n ≠ ""))

/-- Lookup in the `svcMap` built by `setTopologyOrder`: a Go map indexed by
service name, where a later entry overwrites an earlier one; absent keys
yield the zero `ServiceEntry` at use sites. -/
def svcMapGet (topology : List ServiceEntry) (name : String) : Option ServiceEntry :=
  topology.foldl (fun acc e => if e.name = name then some e else acc) none

/-- The reorder loop of `setTopologyOrder`: walk the requested names, fail on
a duplicate, and place the named entries in the requested order. `used`
models the `used` map accumulated so far. -/
def reorderNamed (topology : List ServiceEntry) :
    List String → List String → Except String (List ServiceEntry)
  | [], _ => .ok []
  | n :: rest, used =>
    if n ∈ used then .error s!"duplicate service \x22{n}\x22 in --set value"
    else do
      let tail ← reorderNamed topology rest (n :: used)
      .ok ((svcMapGet topology n).getD default :: tail)

/-- Model of `cmd.setTopologyOrder`: parse the `--set` value, validate that every name
exists, then rebuild the topology — the named services first in the given
order, followed by the unmentioned services in their original order. On
error the function returns before `config.Save`, leaving the stored
configuration unchanged. -/
def setTopologyOrder (projectName : String) (topology : List ServiceEntry)
    (setVal : String) : Except String (List ServiceEntry) :=
  let names := parseTopologyNames setVal
  if names = [] then .error "no service names provided in --set value"
  else
    match names.find? (fun n => (svcMapGet topology n).isNone) with
    | some n =>
      .error (s!"service \x22{n}\x22 not found in project \x22{projectName}\x22\n"
        ++ "Available services: " ++ joinNames (topology.map ServiceEntry.name))
    | none => do
      let reordered ← reorderNamed topology names []
      .ok (reordered ++ topology.filter (fun e => !(names.contains e.name)))

/-- The last non-terminal phase observed along a trace, starting from `acc`:
the value the session's `result.Phase` field holds after processing the
trace's phase-setting events. -/
def lastNonTerminalPhase (acc : String) : List WatchInput → String
  | [] => acc
  | .chanEvent e _ :: rest =>
    if e.phase = "building" ∨ e.phase = "deploying" ∨ e.phase = "healthcheck" then
      lastNonTerminalPhase e.phase rest
    else lastNonTerminalPhase acc rest
  | _ :: rest => lastNonTerminalPhase acc rest

/-- A loop input that keeps an already-detected session running: an adapter
event with a non-terminal phase, or the (now inert) detect-deadline firing. -/
def safeAfterDetect : WatchInput → Prop
  | .detectDeadline _ => True
  | .chanEvent e _ =>
    e.phase = "waiting" ∨ e.phase = "detected" ∨ e.phase = "building"
      ∨ e.phase = "deploying" ∨ e.phase = "healthcheck"
  | _ => False

/-! ### Token encryption (`internal/config/crypto.go`)

`Encrypt`/`Decrypt` wrap AES-256-GCM (Go standard library `crypto/aes` +
`crypto/cipher`, modelled concretely per FIPS-197 and NIST SP 800-38D) and
standard base64 (RFC 4648). Bytes are `Nat` kept below 256 with explicit
`% 256`; Go strings are byte lists, the printable encrypted text a char
list. The random nonce drawn inside Go's `Encrypt` is passed explicitly. -/

/-- Byte-wide XOR: `Nat` with the machine-width truncation explicit. -/
def xor8 (a b : Nat) : Nat := (a ^^^ b) % 256

/-- The AES S-box (FIPS-197 figure 7). -/
def sbox : List Nat :=
  [0x63, 0x7c, 0x77, 0x7b, 0xf2, 0x6b, 0x6f, 0xc5, 0x30, 0x01, 0x67, 0x2b, 0xfe, 0xd7, 0xab, 0x76,
   0xca, 0x82, 0xc9, 0x7d, 0xfa, 0x59, 0x47, 0xf0, 0xad, 0xd4, 0xa2, 0xaf, 0x9c, 0xa4, 0x72, 0xc0,
   0xb7, 0xfd, 0x93, 0x26, 0x36, 0x3f, 0xf7, 0xcc, 0x34, 0xa5, 0xe5, 0xf1, 0x71, 0xd8, 0x31, 0x15,
   0x04, 0xc7, 0x23, 0xc3, 0x18, 0x96, 0x05, 0x9a, 0x07, 0x12, 0x80, 0xe2, 0xeb, 0x27, 0xb2, 0x75,
   0x09, 0x83, 0x2c, 0x1a, 0x1b, 0x6e, 0x5a, 0xa0, 0x52, 0x3b, 0xd6, 0xb3, 0x29, 0xe3, 0x2f, 0x84,
   0x53, 0xd1, 0x00, 0xed, 0x20, 0xfc, 0xb1, 0x5b, 0x6a, 0xcb, 0xbe, 0x39, 0x4a, 0x4c, 0x58, 0xcf,
   0xd0, 0xef, 0xaa, 0xfb, 0x43, 0x4d, 0x33, 0x85, 0x45, 0xf9, 0x02, 0x7f, 0x50, 0x3c, 0x9f, 0xa8,
   0x51, 0xa3, 0x40, 0x8f, 0x92, 0x9d, 0x38, 0xf5, 0xbc, 0xb6, 0xda, 0x21, 0x10, 0xff, 0xf3, 0xd2,
   0xcd, 0x0c, 0x13, 0xec, 0x5f, 0x97, 0x44, 0x17, 0xc4, 0xa7, 0x7e, 0x3d, 0x64, 0x5d, 0x19, 0x73,
   0x60, 0x81, 0x4f, 0xdc, 0x22, 0x2a, 0x90, 0x88, 0x46, 0xee, 0xb8, 0x14, 0xde, 0x5e, 0x0b, 0xdb,
   0xe0, 0x32, 0x3a, 0x0a, 0x49, 0x06, 0x24, 0x5c, 0xc2, 0xd3, 0xac, 0x62, 0x91, 0x95, 0xe4, 0x79,
   0xe7, 0xc8, 0x37, 0x6d, 0x8d, 0xd5, 0x4e, 0xa9, 0x6c, 0x56, 0xf4, 0xea, 0x65, 0x7a, 0xae, 0x08,
   0xba, 0x78, 0x25, 0x2e, 0x1c, 0xa6, 0xb4, 0xc6, 0xe8, 0xdd, 0x74, 0x1f, 0x4b, 0xbd, 0x8b, 0x8a,
   0x70, 0x3e, 0xb5, 0x66, 0x48, 0x03, 0xf6, 0x0e, 0x61, 0x35, 0x57, 0xb9, 0x86, 0xc1, 0x1d, 0x9e,
   0xe1, 0xf8, 0x98, 0x11, 0x69, 0xd9, 0x8e, 0x94, 0x9b, 0x1e, 0x87, 0xe9, 0xce, 0x55, 0x28, 0xdf,
   0x8c, 0xa1, 0x89, 0x0d, 0xbf, 0xe6, 0x42, 0x68, 0x41, 0x99, 0x2d, 0x0f, 0xb0, 0x54, 0xbb, 0x16]

/-- S-box lookup of a byte. -/
def sboxAt (b : Nat) : Nat := sbox.getD (b % 256) 0

/-- The `xtime` map: multiplication by `x` in GF(2^8). -/
def xtime (b : Nat) : Nat := ((2 * b) ^^^ (if 128 ≤ b then 0x1b else 0)) % 256

/-- Multiplication by 3 in GF(2^8). -/
def gmul3 (b : Nat) : Nat := xor8 (xtime b) b

/-- Split a byte list into 4-byte words. -/
def chunks4 : List Nat → List (List Nat)
  | a :: b :: c :: d :: rest => [a, b, c, d] :: chunks4 rest
  | [] => []
  | l => [l]

/-- Byte-wise XOR of two words. -/
def xorWord (w1 w2 : List Nat) : List Nat := List.zipWith xor8 w1 w2

/-- Rotate a 4-byte word left by one byte. -/
def rotWord : List Nat → List Nat
  | [a, b, c, d] => [b, c, d, a]
  | l => l

/-- Apply the S-box to each byte of a word. -/
def subWord (w : List Nat) : List Nat := w.map sboxAt

/-- The AES round constants. -/
def rconByte : Nat → Nat
  | 1 => 0x01
  | 2 => 0x02
  | 3 => 0x04
  | 4 => 0x08
  | 5 => 0x10
  | 6 => 0x20
  | 7 => 0x40
  | 8 => 0x80
  | 9 => 0x1b
  | 10 => 0x36
  | _ => 0

/-- FIPS-197 key expansion (section 5.2), generic over the AES key size
(`Nk = 4/6/8`): produces `4·(Nr+1)` round-key words. -/
def keyExpansion (key : List Nat) : List (List Nat) :=
  let nk := key.length / 4
  let nr := nk + 6
  (List.range (4 * (nr + 1) - nk)).foldl
    (fun w idx =>
      let i := nk + idx
      let temp := w.getD (i - 1) [0, 0, 0, 0]
      let temp :=
        if i % nk = 0 then xorWord (subWord (rotWord temp)) [rconByte (i / nk), 0, 0, 0]
        else if 6 < nk ∧ i % nk = 4 then subWord temp
        else temp
      w ++ [xorWord (w.getD (i - nk) [0, 0, 0, 0]) temp])
    (chunks4 key)

/-- The `SubBytes` step on the 16-byte state. -/
def subBytes (state : List Nat) : List Nat := state.map sboxAt

/-- The `ShiftRows` step on the 16-byte state (byte `r + 4c` holds row `r`,
column `c`). -/
def shiftRows (state : List Nat) : List Nat :=
  (List.range 16).map fun i => state.getD (i % 4 + 4 * ((i / 4 + i % 4) % 4)) 0

/-- The `MixColumns` step on one 4-byte column. -/
def mixColumn : List Nat → List Nat
  | [a0, a1, a2, a3] =>
    [xor8 (xor8 (xtime a0) (gmul3 a1)) (xor8 a2 a3),
     xor8 (xor8 a0 (xtime a1)) (xor8 (gmul3 a2) a3),
     xor8 (xor8 a0 a1) (xor8 (xtime a2) (gmul3 a3)),
     xor8 (xor8 (gmul3 a0) a1) (xor8 a2 (xtime a3))]
  | l => l

/-- The `MixColumns` step on the 16-byte state. -/
def mixColumns (state : List Nat) : List Nat :=
  ((chunks4 state).map mixColumn).flatten

/-- The `AddRoundKey` step: state XOR round key. -/
def addRoundKey (state roundKey : List Nat) : List Nat :=
  List.zipWith xor8 state roundKey

/-- The AES block encryption (FIPS-197 section 5.1). -/
def encryptBlock (key block : List Nat) : List Nat :=
  let w := keyExpansion key
  let nr := key.length / 4 + 6
  let state := addRoundKey block ((w.take 4).flatten)
  let state :=
    (List.range (nr - 1)).foldl
      (fun st rnd =>
        addRoundKey (mixColumns (shiftRows (subBytes st)))
          (((w.drop (4 * (rnd + 1))).take 4).flatten))
      state
  addRoundKey (shiftRows (subBytes state)) (((w.drop (4 * nr)).take 4).flatten)

/-- Big-endian byte list to `Nat`. -/
def bytesToNatBE (l : List Nat) : Nat := l.foldl (fun acc b => acc * 256 + b % 256) 0

/-- Encode a `Nat` as a fixed-length big-endian byte list. -/
def natToBytesBE (len v : Nat) : List Nat :=
  (List.range len).map fun i => v / 256 ^ (len - 1 - i) % 256

/-- GCM's `inc32`: increment the low 32 bits of the counter block. -/
def inc32 (counter : List Nat) : List Nat :=
  counter.take 12 ++ natToBytesBE 4 ((bytesToNatBE (counter.drop 12) + 1) % 2 ^ 32)

/-- Multiplication in GF(2^128) (NIST SP 800-38D algorithm 1), blocks as
128-bit big-endian `Nat`s. -/
def mulGF128 (x y : Nat) : Nat :=
  ((List.range 128).foldl
    (fun zv i =>
      let z := if x.testBit (127 - i) then zv.1 ^^^ zv.2 else zv.1
      let v := if zv.2 % 2 = 1 then zv.2 / 2 ^^^ 0xe1 <<< 120 else zv.2 / 2
      (z, v))
    ((0 : Nat), y)).1

/-- Split a byte list into 16-byte blocks. -/
def chunks16 (l : List Nat) : List (List Nat) :=
  match l with
  | [] => []
  | b :: rest => (b :: rest.take 15) :: chunks16 (rest.drop 15)
termination_by l.length
decreasing_by simp only [List.length_drop, List.length_cons]; omega

/-- GHASH over a whole-block byte string. -/
def ghash (h : Nat) (data : List Nat) : Nat :=
  (chunks16 data).foldl (fun y blk => mulGF128 (y ^^^ bytesToNatBE blk) h) 0

/-- Zero-pad a byte list to a multiple of the block size. -/
def padTo16 (l : List Nat) : List Nat :=
  l ++ List.replicate ((16 - l.length % 16) % 16) 0

/-- The CTR keystream: `n` encrypted counter blocks. -/
def ctrKeyStream (key : List Nat) : List Nat → Nat → List Nat
  | _, 0 => []
  | counter, n + 1 => encryptBlock key counter ++ ctrKeyStream key (inc32 counter) n

/-- The GCM authentication tag over a ciphertext (empty additional data),
computed identically by `Seal` and `Open`. -/
def gcmTag (key nonce ct : List Nat) : List Nat :=
  let h := bytesToNatBE (encryptBlock key (List.replicate 16 0))
  let j0 := nonce ++ [0, 0, 0, 1]
  let s := ghash h (padTo16 ct ++ natToBytesBE 8 0 ++ natToBytesBE 8 (ct.length * 8))
  List.zipWith xor8 (encryptBlock key j0) (natToBytesBE 16 s)

/-- Model of `gcm.Seal(nonce, nonce, plaintext, nil)`: nonce, then the CTR-encrypted
plaintext, then the tag. -/
def gcmSeal (key nonce pt : List Nat) : List Nat :=
  let j0 := nonce ++ [0, 0, 0, 1]
  let ct := List.zipWith xor8 pt (ctrKeyStream key (inc32 j0) ((pt.length + 15) / 16))
  nonce ++ ct ++ gcmTag key nonce ct

/-- Model of `gcm.Open(nil, nonce, ciphertext, nil)`: split off the tag, recompute and
compare it, and only then CTR-decrypt. -/
def gcmOpen (key nonce data : List Nat) : Except String (List Nat) :=
  if data.length < 16 then .error "cipher: message authentication failed"
  else
    let ct := data.take (data.length - 16)
    let tag := data.drop (data.length - 16)
    if tag = gcmTag key nonce ct then
      let j0 := nonce ++ [0, 0, 0, 1]
      .ok (List.zipWith xor8 ct (ctrKeyStream key (inc32 j0) ((ct.length + 15) / 16)))
    else .error "cipher: message authentication failed"

/-- The RFC 4648 standard base64 alphabet. -/
def b64Chars : List Char :=
  "ABCDEFGHIJKLMNOPQRSTUVWXYZabcdefghijklmnopqrstuvwxyz0123456789+/".toList

/-- Encode one 6-bit group. -/
def b64EncChar (n : Nat) : Char := b64Chars.getD n 'A'

/-- Decode one base64 character. -/
def b64DecChar (c : Char) : Option Nat := b64Chars.findIdx? (fun d => d = c)

/-- Model of `base64.StdEncoding.EncodeToString` over byte lists. -/
def base64Encode : List Nat → List Char
  | [] => []
  | [b1] => [b64EncChar (b1 / 4), b64EncChar (b1 % 4 * 16), '=', '=']
  | [b1, b2] =>
    [b64EncChar (b1 / 4), b64EncChar (b1 % 4 * 16 + b2 / 16), b64EncChar (b2 % 16 * 4), '=']
  | b1 :: b2 :: b3 :: rest =>
    b64EncChar (b1 / 4) :: b64EncChar (b1 % 4 * 16 + b2 / 16)
      :: b64EncChar (b2 % 16 * 4 + b3 / 64) :: b64EncChar (b3 % 64) :: base64Encode rest

/-- Model of `base64.StdEncoding.DecodeString`: four-character groups, padding only at
the very end. -/
def base64Decode : List Char → Except String (List Nat)
  | [] => .ok []
  | c1 :: c2 :: c3 :: c4 :: rest =>
    match b64DecChar c1, b64DecChar c2 with
    | some v1, some v2 =>
      if c3 = '=' then
        if c4 = '=' ∧ rest = [] then .ok [v1 * 4 + v2 / 16]
        else .error "illegal base64 data"
      else
        match b64DecChar c3 with
        | some v3 =>
          if c4 = '=' then
            if rest = [] then .ok [v1 * 4 + v2 / 16, v2 % 16 * 16 + v3 / 4]
            else .error "illegal base64 data"
          else
            match b64DecChar c4 with
            | some v4 => do
              let tail ← base64Decode rest
              .ok ((v1 * 4 + v2 / 16) :: (v2 % 16 * 16 + v3 / 4) :: (v3 % 4 * 64 + v4) :: tail)
            | none => .error "illegal base64 data"
        | none => .error "illegal base64 data"
    | _, _ => .error "illegal base64 data"
  | _ => .error "illegal base64 data"

/-- The `"ENC:"` marker (`encPrefix` in `crypto.go`). -/
def encHeader : List Char := ['E', 'N', 'C', ':']

/-- Go `aes.NewCipher` accepts 16-, 24- or 32-byte keys. -/
def validKeySize (n : Nat) : Bool := n = 16 ∨ n = 24 ∨ n = 32

/-- Model of `config.Encrypt`: AES-GCM-seal the plaintext bytes under a fresh
12-byte nonce (passed explicitly here), base64 the `nonce‖ct‖tag`, and
prepend `"ENC:"`. -/
def Encrypt (key nonce plaintext : List Nat) : Except String (List Char) :=
  if validKeySize key.length then
    .ok (encHeader ++ base64Encode (gcmSeal key nonce plaintext))
  else .error "create cipher: crypto/aes: invalid key size"

/-- Model of `config.IsEncrypted`: does the string carry the `"ENC:"` marker? -/
def IsEncrypted (s : List Char) : Bool := encHeader.isPrefixOf s

/-- Model of `config.Decrypt`: require the `"ENC:"` marker, base64-decode, split off
the 12-byte nonce, and GCM-open the rest. -/
def Decrypt (key : List Nat) (encrypted : List Char) : Except String (List Nat) :=
  if encHeader.isPrefixOf encrypted then
    match base64Decode (encrypted.drop 4) with
    | .error e => .error ("decode base64: " ++ e)
    | .ok data =>
      if validKeySize key.length then
        if data.length < 12 then .error "ciphertext too short"
        else
          match gcmOpen key (data.take 12) (data.drop 12) with
          | .ok pt => .ok pt
          | .error e => .error ("decrypt: " ++ e)
      else .error "create cipher: crypto/aes: invalid key size"
  else .error "invalid encrypted string: missing \x22ENC:\x22 prefix"

/-! ### Theorems -/

/-- Pointwise: the `if c > w then c else w` accumulator of `runWatch` is
`Nat.max`. -/
theorem foldl_worst_eq_foldl_max (l : List Nat) :
    ∀ w : Nat, l.foldl (fun w c => if c > w then c else w) w = l.foldl Nat.max w := by
  induction l with
  | nil => intro w; rfl
  | cons c t ih =>
    intro w
    simp only [List.foldl_cons, ih]
    congr 1
    show (if c > w then c else w) = max w c
    rw [Nat.max_def]
    split <;> split <;> omega

/-- C1: reducing the outcomes of a multi-service watch, any `failed` outcome
forces process exit code 1; otherwise the exit code is the numerically
highest individual code (success=0, no_deployment=2, timeout=3). In
particular `[success, timeout]` reduces to 3 and `[failed, success]` to 1,
in either order. -/
theorem C1_reduce_exit_codes :
    (∀ ks : List OutcomeKind,
      reduceExitCodes (ks.map OutcomeKind.exitCode) =
        if OutcomeKind.failed ∈ ks then exitFailed
        else (ks.map OutcomeKind.exitCode).foldl Nat.max 0)
    ∧ reduceExitCodes ([.success, .timeout].map OutcomeKind.exitCode) = 3
    ∧ reduceExitCodes ([.timeout, .success].map OutcomeKind.exitCode) = 3
    ∧ reduceExitCodes ([.failed, .success].map OutcomeKind.exitCode) = 1
    ∧ reduceExitCodes ([.success, .failed].map OutcomeKind.exitCode) = 1 := by
  refine ⟨?_, by decide, by decide, by decide, by decide⟩
  intro ks
  have hany : ((ks.map OutcomeKind.exitCode).any (fun c => c = exitFailed)) = true
      ↔ OutcomeKind.failed ∈ ks := by
    rw [List.any_eq_true]
    constructor
    · rintro ⟨c, hc, he⟩
      rw [List.mem_map] at hc
      obtain ⟨k, hk, rfl⟩ := hc
      simp only [decide_eq_true_eq] at he
      cases k
      case failed => exact hk
      all_goals exact absurd he (by decide)
    · intro h
      exact ⟨1, List.mem_map.mpr ⟨.failed, h, rfl⟩, by decide⟩
  unfold reduceExitCodes
  by_cases hf : OutcomeKind.failed ∈ ks
  · rw [if_pos (hany.mpr hf), if_pos hf]
  · rw [if_neg (fun h => hf (hany.mp h)), if_neg hf]
    exact foldl_worst_eq_foldl_max _ exitSuccess

/-- C6: the three vendor-status mappers are total pure functions and map any
string outside their known vendor vocabulary to itself (pass-through). -/
theorem C6_status_mappers_passthrough :
    (∀ s : String, s ∉ knownVercelStates → mapVercelState s = s)
    ∧ (∀ s : String, s ∉ knownKoyebStatuses → mapKoyebStatus s = s)
    ∧ (∀ s : String, s ∉ knownKoyebDeployStatuses → mapKoyebDeployStatus s = s) := by
  refine ⟨?_, ?_, ?_⟩ <;> intro s hs
  · simp only [knownVercelStates, List.mem_cons, List.not_mem_nil, or_false, not_or] at hs
    simp [mapVercelState, hs.1, hs.2.1, hs.2.2.1, hs.2.2.2.1, hs.2.2.2.2.1,
      hs.2.2.2.2.2.1, hs.2.2.2.2.2.2]
  · simp only [knownKoyebStatuses, List.mem_cons, List.not_mem_nil, or_false, not_or] at hs
    simp [mapKoyebStatus, hs.1, hs.2.1, hs.2.2.1, hs.2.2.2.1, hs.2.2.2.2.1,
      hs.2.2.2.2.2.1, hs.2.2.2.2.2.2.1, hs.2.2.2.2.2.2.2.1, hs.2.2.2.2.2.2.2.2]
  · simp only [knownKoyebDeployStatuses, List.mem_cons, List.not_mem_nil, or_false,
      not_or] at hs
    simp [mapKoyebDeployStatus, hs.1, hs.2.1, hs.2.2.1, hs.2.2.2.1, hs.2.2.2.2.1,
      hs.2.2.2.2.2.1, hs.2.2.2.2.2.2.1, hs.2.2.2.2.2.2.2.1, hs.2.2.2.2.2.2.2.2.1,
      hs.2.2.2.2.2.2.2.2.2.1, hs.2.2.2.2.2.2.2.2.2.2.1, hs.2.2.2.2.2.2.2.2.2.2.2.1,
      hs.2.2.2.2.2.2.2.2.2.2.2.2]

/-- Witness for C6 at a vendor string outside every known vocabulary. -/
theorem C6_status_mappers_passthrough_witness :
    mapVercelState "SOME_NEW_STATE" = "SOME_NEW_STATE"
    ∧ mapKoyebStatus "SOME_NEW_STATE" = "SOME_NEW_STATE"
    ∧ mapKoyebDeployStatus "SOME_NEW_STATE" = "SOME_NEW_STATE" :=
  ⟨C6_status_mappers_passthrough.1 "SOME_NEW_STATE" (by decide),
   C6_status_mappers_passthrough.2.1 "SOME_NEW_STATE" (by decide),
   C6_status_mappers_passthrough.2.2 "SOME_NEW_STATE" (by decide)⟩

/-- C7: the Supabase adapter's `WatchDeployment` returns an immediate
"not supported" error and no channel, and a watch session whose channel
setup fails terminates at once with a failed result carrying that error —
the same result for every possible trace, so it never hangs or polls. -/
theorem C7_unsupported_watch_immediate :
    (∀ serviceID currentDeployID : String,
      supabaseWatchDeployment serviceID currentDeployID =
        .error "not supported: supabase does not support deployment watching")
    ∧ (∃ rest, "not supported: supabase does not support deployment watching" =
        "not supported" ++ rest)
    ∧ (∀ (name plat : String) (deploys : List Deploy) (msg : String)
        (trace : List WatchInput),
        watchSingleService name plat (.ok deploys) (.error msg) trace =
          some { serviceName := name
                 platform := plat
                 exitCode := exitFailed
                 error := s!"watch: {msg}" }) := by
  refine ⟨fun _ _ => rfl, ⟨": supabase does not support deployment watching", rfl⟩,
    fun name plat deploys msg trace => ?_⟩
  simp only [watchSingleService]

/-- Membership in a conditional singleton list. -/
theorem mem_ite_singleton {c : Prop} [Decidable c] {x a : String} :
    (x ∈ if c then [a] else []) ↔ c ∧ x = a := by
  split <;> simp_all

/-- C8: a `no_deployment` result serializes with `result = "no_deployment"`,
the baseline id in `current_deploy_id` (with `deploy_id` absent), and the
elapsed wait in `waited_sec`; and across all outcome kinds at most one of
the `duration_sec` / `waited_sec` / `elapsed_sec` keys is emitted. -/
theorem C8_no_deployment_json :
    (∀ r : WatchResult, r.exitCode = exitNoDeployment →
      (resultToJSON r).result = "no_deployment"
      ∧ (resultToJSON r).currentDeployID = r.deployID
      ∧ (resultToJSON r).deployID = ""
      ∧ "deploy_id" ∉ watchJSONKeys (resultToJSON r)
      ∧ (resultToJSON r).waitedSec = r.waitedSec
      ∧ (r.deployID ≠ "" → "current_deploy_id" ∈ watchJSONKeys (resultToJSON r)))
    ∧ (∀ r : WatchResult,
        ¬("duration_sec" ∈ watchJSONKeys (resultToJSON r)
          ∧ "waited_sec" ∈ watchJSONKeys (resultToJSON r))
        ∧ ¬("duration_sec" ∈ watchJSONKeys (resultToJSON r)
          ∧ "elapsed_sec" ∈ watchJSONKeys (resultToJSON r))
        ∧ ¬("waited_sec" ∈ watchJSONKeys (resultToJSON r)
          ∧ "elapsed_sec" ∈ watchJSONKeys (resultToJSON r))) := by
  constructor
  · intro r h
    rw [show exitNoDeployment = 2 from rfl] at h
    have h0 : r.exitCode ≠ 0 := by omega
    have h1 : r.exitCode ≠ 1 := by omega
    simp [resultToJSON, watchJSONKeys, h, h0, h1, exitNoDeployment, exitSuccess,
      exitFailed, mem_ite_singleton, List.mem_append]
  · intro r
    by_cases h0 : r.exitCode = 0
    · simp [resultToJSON, watchJSONKeys, h0, exitSuccess, exitFailed,
        exitNoDeployment, exitTimeout, mem_ite_singleton, List.mem_append]
    · by_cases h1 : r.exitCode = 1
      · simp [resultToJSON, watchJSONKeys, h0, h1, exitSuccess, exitFailed,
          exitNoDeployment, exitTimeout, mem_ite_singleton, List.mem_append]
      · by_cases h2 : r.exitCode = 2
        · simp [resultToJSON, watchJSONKeys, h0, h1, h2, exitSuccess, exitFailed,
            exitNoDeployment, exitTimeout, mem_ite_singleton, List.mem_append]
        · by_cases h3 : r.exitCode = 3
          · simp [resultToJSON, watchJSONKeys, h0, h1, h2, h3, exitSuccess, exitFailed,
              exitNoDeployment, exitTimeout, mem_ite_singleton, List.mem_append]
          · simp [resultToJSON, watchJSONKeys, h0, h1, h2, h3, exitSuccess, exitFailed,
              exitNoDeployment, exitTimeout, mem_ite_singleton, List.mem_append]

/-- Witness for C8 at a concrete `no_deployment` result. -/
theorem C8_no_deployment_json_witness :
    (resultToJSON { serviceName := "api", platform := "koyeb", exitCode := 2, deployID := "d1", waitedSec := 60 }).result = "no_deployment"
    ∧ (resultToJSON { serviceName := "api", platform := "koyeb", exitCode := 2, deployID := "d1", waitedSec := 60 }).currentDeployID = "d1"
    ∧ "deploy_id" ∉ watchJSONKeys (resultToJSON { serviceName := "api", platform := "koyeb", exitCode := 2, deployID := "d1", waitedSec := 60 })
    ∧ "current_deploy_id" ∈ watchJSONKeys (resultToJSON { serviceName := "api", platform := "koyeb", exitCode := 2, deployID := "d1", waitedSec := 60 }) := by
  have h := C8_no_deployment_json.1
    { serviceName := "api", platform := "koyeb", exitCode := 2, deployID := "d1", waitedSec := 60 }
    (by decide)
  exact ⟨h.1, h.2.1, h.2.2.2.1, h.2.2.2.2.2 (by decide)⟩

/-- Events with phase `waiting` are consumed by the session loop without any state
change. -/
theorem watchLoop_waiting_skip (cur : String) (detected : Bool) (res : WatchResult)
    (pre rest : List WatchInput)
    (h : ∀ i ∈ pre, ∃ e el, i = WatchInput.chanEvent e el ∧ e.phase = "waiting") :
    watchLoop cur detected res (pre ++ rest) = watchLoop cur detected res rest := by
  induction pre with
  | nil => rfl
  | cons i tail ih =>
    obtain ⟨e, el, rfl, hw⟩ := h i (List.mem_cons_self i tail)
    simp only [List.cons_append, watchLoop, hw, if_pos]
    exact ih fun j hj => h j (List.mem_cons_of_mem _ hj)

/-- C2: if every adapter event before the detect-deadline is a `waiting`
event (the observed deployment id never left the baseline), the session ends
`no_deployment`, records the elapsed wait — which is within one poll
interval of the 60-second detect-deadline whenever the deadline branch runs
in that window — and reports the baseline deployment id. -/
theorem C2_detect_deadline_no_deployment :
    ∀ (name plat : String) (deploys : List Deploy) (pre rest : List WatchInput) (t : Nat),
    (∀ i ∈ pre, ∃ e el, i = WatchInput.chanEvent e el ∧ e.phase = "waiting") →
    detectTimeoutSec ≤ t → t ≤ detectTimeoutSec + pollIntervalSec →
    ∃ r, watchSingleService name plat (.ok deploys) (.ok ())
          (pre ++ WatchInput.detectDeadline t :: rest) = some r
      ∧ r.exitCode = exitNoDeployment
      ∧ r.waitedSec = t
      ∧ detectTimeoutSec ≤ r.waitedSec
      ∧ r.waitedSec ≤ detectTimeoutSec + pollIntervalSec
      ∧ r.deployID = baselineID deploys
      ∧ r.error = "No new deployment detected" := by
  intro name plat deploys pre rest t hw h1 h2
  have hrun : watchSingleService name plat (.ok deploys) (.ok ())
      (pre ++ WatchInput.detectDeadline t :: rest) =
      some { serviceName := name
             platform := plat
             exitCode := exitNoDeployment
             waitedSec := t
             error := "No new deployment detected"
             deployID := if baselineID deploys ≠ "" then baselineID deploys else "" } := by
    simp only [watchSingleService]
    rw [watchLoop_waiting_skip _ _ _ _ _ hw]
    simp [watchLoop]
  refine ⟨_, hrun, rfl, rfl, h1, h2, ?_, rfl⟩
  by_cases hb : baselineID deploys = "" <;> simp [hb]

/-- Witness for C2: two `waiting` polls, then the detect-deadline fires at
60 s with baseline `d1`. -/
theorem C2_detect_deadline_no_deployment_witness :
    ∃ r, watchSingleService "api" "koyeb" (.ok [{ id := "d1" }]) (.ok ())
          ([.chanEvent { phase := "waiting" } 3, .chanEvent { phase := "waiting" } 6]
            ++ WatchInput.detectDeadline 60 :: []) = some r
      ∧ r.exitCode = exitNoDeployment
      ∧ r.waitedSec = 60
      ∧ detectTimeoutSec ≤ r.waitedSec
      ∧ r.waitedSec ≤ detectTimeoutSec + pollIntervalSec
      ∧ r.deployID = baselineID [{ id := "d1" }]
      ∧ r.error = "No new deployment detected" :=
  C2_detect_deadline_no_deployment "api" "koyeb" [{ id := "d1" }]
    [.chanEvent { phase := "waiting" } 3, .chanEvent { phase := "waiting" } 6] [] 60
    (by
      intro i hi
      rw [List.mem_cons, List.mem_singleton] at hi
      rcases hi with h | h <;> exact ⟨_, _, h, rfl⟩)
    (by decide) (by decide)

/-- After detection, a trace of non-terminal inputs followed by the overall
deadline ends the session with `timeout`, the `phase` field tracking the
last non-terminal phase observed. -/
theorem watchLoop_timeout_after_detect (cur : String) (t : Nat) :
    ∀ (pre : List WatchInput) (res : WatchResult),
    (∀ i ∈ pre, safeAfterDetect i) →
    ∃ r, watchLoop cur true res (pre ++ [WatchInput.overallDeadline t]) = some r
      ∧ r.exitCode = exitTimeout
      ∧ r.phase = lastNonTerminalPhase res.phase pre
      ∧ r.error = s!"Deploy still in progress after {t}s" := by
  intro pre
  induction pre with
  | nil =>
    intro res _
    exact ⟨_, rfl, rfl, rfl, rfl⟩
  | cons i tail ih =>
    intro res h
    have hi := h i (List.mem_cons_self i tail)
    have htail := fun j hj => h j (List.mem_cons_of_mem i hj)
    cases i with
    | detectDeadline el =>
      simp only [List.cons_append, watchLoop, lastNonTerminalPhase, Bool.not_true,
        Bool.false_eq_true, if_false]
      exact ih res htail
    | overallDeadline el => simp [safeAfterDetect] at hi
    | chanClosed => simp [safeAfterDetect] at hi
    | chanEvent e el =>
      simp only [safeAfterDetect] at hi
      rcases hi with hp | hp | hp | hp | hp
      · simp only [List.cons_append, watchLoop, lastNonTerminalPhase, hp]
        try simp only [reduceIte]
        obtain ⟨r, hr, h1, h2, h3⟩ := ih res htail
        exact ⟨r, hr, h1, by simpa using h2, h3⟩
      · simp only [List.cons_append, watchLoop, lastNonTerminalPhase, hp]
        try simp only [reduceIte]
        cases hdep : e.deploy with
        | none =>
          obtain ⟨r, hr, h1, h2, h3⟩ := ih res htail
          exact ⟨r, hr, h1, by simpa using h2, h3⟩
        | some d =>
          obtain ⟨r, hr, h1, h2, h3⟩ :=
            ih { res with deployID := d.id, commit := d.commit, message := d.message } htail
          exact ⟨r, hr, h1, by simpa using h2, h3⟩
      · simp only [List.cons_append, watchLoop, lastNonTerminalPhase, hp]
        try simp only [reduceIte]
        obtain ⟨r, hr, h1, h2, h3⟩ := ih { res with phase := "building" } htail
        exact ⟨r, hr, h1, by simpa using h2, h3⟩
      · simp only [List.cons_append, watchLoop, lastNonTerminalPhase, hp]
        try simp only [reduceIte]
        obtain ⟨r, hr, h1, h2, h3⟩ := ih { res with phase := "deploying" } htail
        exact ⟨r, hr, h1, by simpa using h2, h3⟩
      · simp only [List.cons_append, watchLoop, lastNonTerminalPhase, hp]
        try simp only [reduceIte]
        obtain ⟨r, hr, h1, h2, h3⟩ := ih { res with phase := "healthcheck" } htail
        exact ⟨r, hr, h1, by simpa using h2, h3⟩

/-- Events with phase `waiting` are consumed by the quiet session loop without any
state change (they fall through every case of its event switch). -/
theorem watchLoopQuiet_waiting_skip (detected : Bool) (res : WatchResult)
    (pre rest : List WatchInput)
    (h : ∀ i ∈ pre, ∃ e el, i = WatchInput.chanEvent e el ∧ e.phase = "waiting") :
    watchLoopQuiet detected res (pre ++ rest) = watchLoopQuiet detected res rest := by
  induction pre with
  | nil => rfl
  | cons i tail ih =>
    obtain ⟨e, el, rfl, hw⟩ := h i (List.mem_cons_self i tail)
    simp only [List.cons_append, watchLoopQuiet, hw]
    try simp only [reduceIte]
    exact ih fun j hj => h j (List.mem_cons_of_mem _ hj)

/-- Quiet-loop analogue of `watchLoop_timeout_after_detect`. -/
theorem watchLoopQuiet_timeout_after_detect (t : Nat) :
    ∀ (pre : List WatchInput) (res : WatchResult),
    (∀ i ∈ pre, safeAfterDetect i) →
    ∃ r, watchLoopQuiet true res (pre ++ [WatchInput.overallDeadline t]) = some r
      ∧ r.exitCode = exitTimeout
      ∧ r.phase = lastNonTerminalPhase res.phase pre
      ∧ r.error = s!"Deploy still in progress after {t}s" := by
  intro pre
  induction pre with
  | nil =>
    intro res _
    exact ⟨_, rfl, rfl, rfl, rfl⟩
  | cons i tail ih =>
    intro res h
    have hi := h i (List.mem_cons_self i tail)
    have htail := fun j hj => h j (List.mem_cons_of_mem i hj)
    cases i with
    | detectDeadline el =>
      simp only [List.cons_append, watchLoopQuiet, lastNonTerminalPhase, Bool.not_true,
        Bool.false_eq_true, if_false]
      exact ih res htail
    | overallDeadline el => simp [safeAfterDetect] at hi
    | chanClosed => simp [safeAfterDetect] at hi
    | chanEvent e el =>
      simp only [safeAfterDetect] at hi
      rcases hi with hp | hp | hp | hp | hp
      · simp only [List.cons_append, watchLoopQuiet, lastNonTerminalPhase, hp]
        try simp only [reduceIte]
        obtain ⟨r, hr, h1, h2, h3⟩ := ih res htail
        exact ⟨r, hr, h1, by simpa using h2, h3⟩
      · simp only [List.cons_append, watchLoopQuiet, lastNonTerminalPhase, hp]
        try simp only [reduceIte]
        cases hdep : e.deploy with
        | none =>
          obtain ⟨r, hr, h1, h2, h3⟩ := ih res htail
          exact ⟨r, hr, h1, by simpa using h2, h3⟩
        | some d =>
          obtain ⟨r, hr, h1, h2, h3⟩ :=
            ih { res with deployID := d.id, commit := d.commit, message := d.message } htail
          exact ⟨r, hr, h1, by simpa using h2, h3⟩
      · simp only [List.cons_append, watchLoopQuiet, lastNonTerminalPhase, hp]
        try simp only [reduceIte]
        obtain ⟨r, hr, h1, h2, h3⟩ := ih { res with phase := "building" } htail
        exact ⟨r, hr, h1, by simpa using h2, h3⟩
      · simp only [List.cons_append, watchLoopQuiet, lastNonTerminalPhase, hp]
        try simp only [reduceIte]
        obtain ⟨r, hr, h1, h2, h3⟩ := ih { res with phase := "deploying" } htail
        exact ⟨r, hr, h1, by simpa using h2, h3⟩
      · simp only [List.cons_append, watchLoopQuiet, lastNonTerminalPhase, hp]
        try simp only [reduceIte]
        obtain ⟨r, hr, h1, h2, h3⟩ := ih { res with phase := "healthcheck" } htail
        exact ⟨r, hr, h1, by simpa using h2, h3⟩

/-- C3: if a deployment is detected (before the detect-deadline fires) and
every subsequent event is non-terminal, the overall deadline ends the session
— in both the narrated and the quiet variant — with `timeout`, the recorded
phase being the last observed non-terminal phase; if nothing was ever
detected when the overall deadline fires, the outcome is `no_deployment`
instead. -/
theorem C3_overall_deadline_timeout :
    (∀ (name plat : String) (deploys : List Deploy) (preA preB : List WatchInput)
        (e : DeployEvent) (el t : Nat),
      (∀ i ∈ preA, ∃ e' el', i = WatchInput.chanEvent e' el' ∧ e'.phase = "waiting") →
      e.phase = "detected" →
      (∀ i ∈ preB, safeAfterDetect i) →
      ∃ r, watchSingleService name plat (.ok deploys) (.ok ())
            (preA ++ WatchInput.chanEvent e el :: (preB ++ [WatchInput.overallDeadline t]))
          = some r
        ∧ r.exitCode = exitTimeout
        ∧ r.phase = lastNonTerminalPhase "" preB)
    ∧ (∀ (name plat : String) (deploys : List Deploy) (preA preB : List WatchInput)
        (e : DeployEvent) (el t : Nat),
      (∀ i ∈ preA, ∃ e' el', i = WatchInput.chanEvent e' el' ∧ e'.phase = "waiting") →
      e.phase = "detected" →
      (∀ i ∈ preB, safeAfterDetect i) →
      ∃ r, watchSingleServiceQuiet name plat (.ok deploys) (.ok ())
            (preA ++ WatchInput.chanEvent e el :: (preB ++ [WatchInput.overallDeadline t]))
          = some r
        ∧ r.exitCode = exitTimeout
        ∧ r.phase = lastNonTerminalPhase "" preB)
    ∧ (∀ (name plat : String) (deploys : List Deploy) (pre : List WatchInput) (t : Nat),
      (∀ i ∈ pre, ∃ e' el', i = WatchInput.chanEvent e' el' ∧ e'.phase = "waiting") →
      ∃ r, watchSingleService name plat (.ok deploys) (.ok ())
            (pre ++ [WatchInput.overallDeadline t]) = some r
        ∧ r.exitCode = exitNoDeployment)
    ∧ (∀ (name plat : String) (deploys : List Deploy) (pre : List WatchInput) (t : Nat),
      (∀ i ∈ pre, ∃ e' el', i = WatchInput.chanEvent e' el' ∧ e'.phase = "waiting") →
      ∃ r, watchSingleServiceQuiet name plat (.ok deploys) (.ok ())
            (pre ++ [WatchInput.overallDeadline t]) = some r
        ∧ r.exitCode = exitNoDeployment) := by
  refine ⟨?_, ?_, ?_, ?_⟩
  · intro name plat deploys preA preB e el t hwA he hsB
    simp only [watchSingleService]
    rw [watchLoop_waiting_skip _ _ _ _ _ hwA]
    simp only [watchLoop, he]
    try simp only [reduceIte]
    cases hdep : e.deploy with
    | none =>
      obtain ⟨r, hr, h1, h2, _⟩ :=
        watchLoop_timeout_after_detect (baselineID deploys) t preB
          { serviceName := name, platform := plat } hsB
      exact ⟨r, hr, h1, h2⟩
    | some d =>
      obtain ⟨r, hr, h1, h2, _⟩ :=
        watchLoop_timeout_after_detect (baselineID deploys) t preB
          { serviceName := name, platform := plat, deployID := d.id, commit := d.commit,
            message := d.message } hsB
      exact ⟨r, hr, h1, h2⟩
  · intro name plat deploys preA preB e el t hwA he hsB
    simp only [watchSingleServiceQuiet]
    rw [watchLoopQuiet_waiting_skip _ _ _ _ hwA]
    simp only [watchLoopQuiet, he]
    try simp only [reduceIte]
    cases hdep : e.deploy with
    | none =>
      obtain ⟨r, hr, h1, h2, _⟩ :=
        watchLoopQuiet_timeout_after_detect t preB
          { serviceName := name, platform := plat } hsB
      exact ⟨r, hr, h1, h2⟩
    | some d =>
      obtain ⟨r, hr, h1, h2, _⟩ :=
        watchLoopQuiet_timeout_after_detect t preB
          { serviceName := name, platform := plat, deployID := d.id, commit := d.commit,
            message := d.message } hsB
      exact ⟨r, hr, h1, h2⟩
  · intro name plat deploys pre t hw
    simp only [watchSingleService]
    rw [watchLoop_waiting_skip _ _ _ _ _ hw]
    exact ⟨_, rfl, rfl⟩
  · intro name plat deploys pre t hw
    simp only [watchSingleServiceQuiet]
    rw [watchLoopQuiet_waiting_skip _ _ _ _ hw]
    exact ⟨_, rfl, rfl⟩

/-- Witness for C3: detection at 6 s, one `building` event, the (inert)
detect-deadline at 60 s, then the overall deadline at 300 s. -/
theorem C3_overall_deadline_timeout_witness :
    ∃ r, watchSingleService "api" "koyeb" (.ok [{ id := "d1" }]) (.ok ())
          ([WatchInput.chanEvent { phase := "waiting" } 3]
            ++ WatchInput.chanEvent { phase := "detected", deploy := some { id := "d2" } } 6 ::
              ([WatchInput.chanEvent { phase := "building" } 9, WatchInput.detectDeadline 60]
                ++ [WatchInput.overallDeadline 300])) = some r
      ∧ r.exitCode = exitTimeout
      ∧ r.phase = lastNonTerminalPhase ""
          [WatchInput.chanEvent { phase := "building" } 9, WatchInput.detectDeadline 60] :=
  C3_overall_deadline_timeout.1 "api" "koyeb" [{ id := "d1" }]
    [WatchInput.chanEvent { phase := "waiting" } 3]
    [WatchInput.chanEvent { phase := "building" } 9, WatchInput.detectDeadline 60]
    { phase := "detected", deploy := some { id := "d2" } } 6 300
    (by
      intro i hi
      rw [List.mem_singleton] at hi
      exact ⟨_, _, hi, rfl⟩)
    rfl
    (by
      intro i hi
      rw [List.mem_cons, List.mem_singleton] at hi
      rcases hi with h | h <;> subst h <;> simp [safeAfterDetect])

/-- Dropping the second of two consecutive polls that map to the same watch
phase leaves the emitted event stream unchanged. -/
theorem trackRun_same_phase (m : String → String)
    (g : String → Except String (List String)) (lastPhase : String) (d1 d2 : Deploy)
    (rest : List (Except String Deploy)) (h : m d1.status = m d2.status) :
    trackRun m g lastPhase (.ok d1 :: .ok d2 :: rest) =
      trackRun m g lastPhase (.ok d1 :: rest) := by
  have h' : m d2.status = m d1.status := h.symm
  simp only [trackRun, h']
  by_cases h1 : m d1.status = lastPhase
  · simp [h1]
  · simp only [if_neg h1]
    by_cases h2 : m d1.status = "done"
    · simp [h2]
    · simp only [if_neg h2]
      by_cases h3 : m d1.status = "failed"
      · simp [h3]
      · simp only [if_neg h3]
        simp

/-- Every single successful poll contributes at most one event. -/
theorem trackRun_single_le_one (m : String → String)
    (g : String → Except String (List String)) (lastPhase : String) (d : Deploy) :
    (trackRun m g lastPhase [.ok d]).length ≤ 1 := by
  simp only [trackRun]
  repeat' split <;> try simp [trackRun]

/-- C5: deployment tracking emits an event only on phase change — for both
adapters, a repeated poll with the same vendor status adds no event to the
stream (so two consecutive equal-status polls produce at most one event),
and any single poll produces at most one event. -/
theorem C5_phase_events_idempotent :
    ∀ (g : String → Except String (List String)) (lastPhase : String) (d1 d2 : Deploy)
      (rest : List (Except String Deploy)), d1.status = d2.status →
    vercelTrackDeployment g lastPhase (.ok d1 :: .ok d2 :: rest) =
      vercelTrackDeployment g lastPhase (.ok d1 :: rest)
    ∧ koyebTrackDeployment g lastPhase (.ok d1 :: .ok d2 :: rest) =
      koyebTrackDeployment g lastPhase (.ok d1 :: rest)
    ∧ (vercelTrackDeployment g lastPhase [.ok d1]).length ≤ 1
    ∧ (koyebTrackDeployment g lastPhase [.ok d1]).length ≤ 1 := by
  intro g lastPhase d1 d2 rest h
  refine ⟨?_, ?_, ?_, ?_⟩
  · exact trackRun_same_phase _ _ _ _ _ _ (by rw [h])
  · exact trackRun_same_phase _ _ _ _ _ _ (by rw [h])
  · exact trackRun_single_le_one _ _ _ _
  · exact trackRun_single_le_one _ _ _ _

/-- Witness for C5: two consecutive `STARTING`-mapped polls of the same
deployment produce a single `deploying` event. -/
theorem C5_phase_events_idempotent_witness :
    vercelTrackDeployment (fun _ => .error "no logs") ""
        (.ok { id := "d2", status := "deploying" } :: .ok { id := "d2", status := "deploying" } :: []) =
      vercelTrackDeployment (fun _ => .error "no logs") ""
        (.ok { id := "d2", status := "deploying" } :: [])
    ∧ koyebTrackDeployment (fun _ => .error "no logs") ""
        (.ok { id := "d2", status := "deploying" } :: .ok { id := "d2", status := "deploying" } :: []) =
      koyebTrackDeployment (fun _ => .error "no logs") ""
        (.ok { id := "d2", status := "deploying" } :: []) :=
  ⟨(C5_phase_events_idempotent (fun _ => .error "no logs") ""
      { id := "d2", status := "deploying" } { id := "d2", status := "deploying" } [] rfl).1,
   (C5_phase_events_idempotent (fun _ => .error "no logs") ""
      { id := "d2", status := "deploying" } { id := "d2", status := "deploying" } [] rfl).2.1⟩

/-- C4: only the Vercel adapter's `WatchDeployment` recognizes an already
in-progress most-recent deployment as the target to track immediately. At
the same failing input — baseline `d1`, most recent deployment `d1` with the
in-progress status `building` — the Vercel goroutine emits `detected` and
tracks it, while the Koyeb goroutine only emits `waiting` polls, waiting for
a different deployment id, contrary to the claim (and to `isInProgress`'s
stated purpose). -/
theorem C4_in_progress_pre_check :
    vercelWatchDeployment "d1" [.ok [{ id := "d1", status := "building" }]]
        [.ok { id := "d1", status := "healthy" }] (fun _ => .error "no logs") =
      [{ phase := "detected", message := "In-progress deployment found (d1)",
         deploy := some { id := "d1", status := "building" } },
       { phase := "done", message := "Deploy successful!",
         deploy := some { id := "d1", status := "healthy" } }]
    ∧ koyebWatchDeployment "d1"
        [.ok [{ id := "d1", status := "building" }], .ok [{ id := "d1", status := "building" }]]
        [.ok { id := "d1", status := "healthy" }] (fun _ => .error "no logs") =
      [{ phase := "waiting", message := "Waiting for new deployment..." },
       { phase := "waiting", message := "Waiting for new deployment..." }]
    ∧ isInProgress "building" = true := by
  refine ⟨rfl, rfl, rfl⟩

/-- Unfolding the accumulator of the `svcMap` fold: the last matching entry
wins, and the initial accumulator only surfaces when nothing matches. -/
theorem svcMapGet_acc (l : List ServiceEntry) (n : String) :
    ∀ acc : Option ServiceEntry,
      l.foldl (fun acc e => if e.name = n then some e else acc) acc =
        match l.foldl (fun acc e => if e.name = n then some e else acc) none with
        | some x => some x
        | none => acc := by
  induction l with
  | nil => intro acc; rfl
  | cons e t ih =>
    intro acc
    simp only [List.foldl_cons]
    rw [ih (if e.name = n then some e else acc), ih (if e.name = n then some e else none)]
    cases ht : t.foldl (fun acc e => if e.name = n then some e else acc) none with
    | some x => rfl
    | none => by_cases he : e.name = n <;> simp [he]

/-- Cons unfolding of `svcMapGet`. -/
theorem svcMapGet_cons (e : ServiceEntry) (t : List ServiceEntry) (n : String) :
    svcMapGet (e :: t) n =
      match svcMapGet t n with
      | some x => some x
      | none => if e.name = n then some e else none := by
  simp only [svcMapGet, List.foldl_cons]
  rw [svcMapGet_acc]

/-- Lookup `svcMapGet` misses exactly when no entry carries the name. -/
theorem svcMapGet_eq_none_iff (l : List ServiceEntry) (n : String) :
    svcMapGet l n = none ↔ ∀ e ∈ l, e.name ≠ n := by
  induction l with
  | nil => simp [svcMapGet]
  | cons e t ih =>
    rw [svcMapGet_cons]
    cases ht : svcMapGet t n with
    | some x =>
      simp only [reduceCtorEq, false_iff]
      intro hall
      have : svcMapGet t n = none := (ih).mpr fun f hf => hall f (List.mem_cons_of_mem _ hf)
      rw [ht] at this
      cases this
    | none =>
      rw [ht] at ih
      by_cases he : e.name = n
      · simp only [he, if_pos, List.mem_cons, reduceCtorEq, false_iff]
        intro hall
        exact hall e (Or.inl rfl) he
      · simp only [if_neg he, List.mem_cons, true_iff]
        intro f hf
        rcases hf with rfl | hf'
        · exact he
        · exact (ih.mp rfl) f hf'

/-- A hit of `svcMapGet` is an entry of the list carrying the name. -/
theorem svcMapGet_mem {l : List ServiceEntry} {n : String} {e : ServiceEntry}
    (h : svcMapGet l n = some e) : e ∈ l ∧ e.name = n := by
  induction l with
  | nil => cases h
  | cons f t ih =>
    rw [svcMapGet_cons] at h
    cases ht : svcMapGet t n with
    | some x =>
      rw [ht] at h
      cases h
      have := ih ht
      exact ⟨List.mem_cons_of_mem _ this.1, this.2⟩
    | none =>
      rw [ht] at h
      by_cases hf : f.name = n
      · rw [if_pos hf] at h
        cases h
        exact ⟨List.mem_cons_self _ _, hf⟩
      · rw [if_neg hf] at h
        cases h

/-- With pairwise-distinct service names, `svcMapGet` returns the unique
entry with the requested name. -/
theorem svcMapGet_unique {l : List ServiceEntry} {n : String} {e : ServiceEntry}
    (hnd : (l.map ServiceEntry.name).Nodup) (he : e ∈ l) (hn : e.name = n) :
    svcMapGet l n = some e := by
  induction l with
  | nil => cases he
  | cons f t ih =>
    rw [svcMapGet_cons]
    rw [List.map_cons, List.nodup_cons] at hnd
    rcases List.mem_cons.mp he with rfl | he'
    · have ht : svcMapGet t n = none := by
        rw [svcMapGet_eq_none_iff]
        intro g hg hgn
        exact hnd.1 (hn ▸ hgn ▸ List.mem_map_of_mem ServiceEntry.name hg)
      rw [ht, if_pos hn]
    · rw [ih hnd.2 he']

/-- C10 counterexample: with two stored services that share the name `a`,
`orbit topology p --set "a"` silently drops one of them — the result is not
a permutation of the previous topology. -/
theorem C10_topology_counterexample :
    setTopologyOrder "p" [{ name := "a", platform := "p1", id := "1" },
        { name := "a", platform := "p2", id := "2" }] "a" =
      .ok [{ name := "a", platform := "p2", id := "2" }]
    ∧ ¬ List.Perm ([{ name := "a", platform := "p2", id := "2" }] : List ServiceEntry)
        [{ name := "a", platform := "p1", id := "1" },
         { name := "a", platform := "p2", id := "2" }] := by
  constructor
  · rfl
  · intro hp
    have := hp.length_eq
    simp at this

/-- With duplicate-free names disjoint from `used`, the reorder loop
succeeds and places the looked-up entries in the requested order. -/
theorem reorderNamed_ok (topology : List ServiceEntry) :
    ∀ (names used : List String), names.Nodup → (∀ n ∈ names, n ∉ used) →
    reorderNamed topology names used =
      .ok (names.map fun n => (svcMapGet topology n).getD default) := by
  intro names
  induction names with
  | nil => intro used _ _; rfl
  | cons n rest ih =>
    intro used hnd hdisj
    have hn : n ∉ used := hdisj n (List.mem_cons_self _ _)
    rw [List.nodup_cons] at hnd
    have hdisj' : ∀ m ∈ rest, m ∉ n :: used := by
      intro m hm
      rw [List.mem_cons]
      rintro (rfl | hmu)
      · exact hnd.1 hm
      · exact hdisj m (List.mem_cons_of_mem _ hm) hmu
    simp only [reorderNamed, if_neg hn, ih (n :: used) hnd.2 hdisj']
    rfl

/-- A duplicated name (or a name already used) makes the reorder loop fail. -/
theorem reorderNamed_error (topology : List ServiceEntry) :
    ∀ (names used : List String),
    ¬(names.Nodup ∧ ∀ n ∈ names, n ∉ used) →
    ∃ msg, reorderNamed topology names used = .error msg := by
  intro names
  induction names with
  | nil =>
    intro used h
    exact absurd ⟨List.nodup_nil, by simp⟩ h
  | cons n rest ih =>
    intro used h
    by_cases hn : n ∈ used
    · refine ⟨s!"duplicate service \x22{n}\x22 in --set value", ?_⟩
      simp [reorderNamed, hn]
    · have hnot : ¬(rest.Nodup ∧ ∀ m ∈ rest, m ∉ n :: used) := by
        rintro ⟨h1, h2⟩
        apply h
        refine ⟨List.nodup_cons.mpr ⟨fun hmem => h2 n hmem (List.mem_cons_self _ _), h1⟩, ?_⟩
        intro m hm
        rcases List.mem_cons.mp hm with rfl | hm'
        · exact hn
        · exact fun hmu => h2 m hm' (List.mem_cons_of_mem _ hmu)
      obtain ⟨msg, hmsg⟩ := ih (n :: used) hnot
      refine ⟨msg, ?_⟩
      simp only [reorderNamed, if_neg hn, hmsg]
      rfl

/-- Appending lists, the later block takes precedence in the `svcMap`. -/
theorem svcMapGet_append (l₁ l₂ : List ServiceEntry) (n : String) :
    svcMapGet (l₁ ++ l₂) n =
      match svcMapGet l₂ n with
      | some x => some x
      | none => svcMapGet l₁ n := by
  simp only [svcMapGet, List.foldl_append]
  rw [svcMapGet_acc l₂ n]

/-- The reordered head block plus the untouched tail block is a permutation
of the original topology, provided service names are unique, the requested
names are unique, and every requested name exists. -/
theorem named_filter_perm :
    ∀ (names : List String) (topology : List ServiceEntry),
    (topology.map ServiceEntry.name).Nodup → names.Nodup →
    (∀ n ∈ names, ∃ e ∈ topology, e.name = n) →
    List.Perm
      ((names.map fun n => (svcMapGet topology n).getD default)
        ++ topology.filter (fun e => !(names.contains e.name)))
      topology := by
  intro names
  induction names with
  | nil =>
    intro topology _ _ _
    simp [List.filter_eq_self]
  | cons n rest ih =>
    intro topology hndT hndN hex
    obtain ⟨e, heT, hen⟩ := hex n (List.mem_cons_self _ _)
    rw [List.nodup_cons] at hndN
    have hget : svcMapGet topology n = some e := svcMapGet_unique hndT heT hen
    obtain ⟨l₁, l₂, hel₁, hdecomp, herase⟩ := List.exists_erase_eq heT
    have hnodup' : ((topology.erase e).map ServiceEntry.name).Nodup :=
      ((topology.erase_sublist e).map ServiceEntry.name).nodup hndT
    have hnames_ne : ∀ x ∈ l₁ ++ l₂, x.name ≠ n := by
      have hmapnd := hndT
      rw [hdecomp, List.map_append, List.map_cons, List.nodup_append] at hmapnd
      obtain ⟨hnd₁, hnd₂, hdisj⟩ := hmapnd
      rw [List.nodup_cons] at hnd₂
      intro x hx hxn
      rcases List.mem_append.mp hx with hx₁ | hx₂
      · refine hdisj (List.mem_map_of_mem ServiceEntry.name hx₁) ?_
        rw [hxn, ← hen]
        exact List.mem_cons_self _ _
      · apply hnd₂.1
        rw [hen, ← hxn]
        exact List.mem_map_of_mem ServiceEntry.name hx₂
    have hlookup_eq : ∀ m ∈ rest, svcMapGet topology m = svcMapGet (topology.erase e) m := by
      intro m hm
      have hmn : m ≠ n := fun hmn => hndN.1 (hmn ▸ hm)
      rw [herase, hdecomp]
      rw [svcMapGet_append, svcMapGet_append]
      have hcons : svcMapGet (e :: l₂) m = svcMapGet l₂ m := by
        rw [svcMapGet_cons]
        cases hl₂ : svcMapGet l₂ m with
        | some x => rfl
        | none => rw [if_neg (fun h => hmn (h.symm.trans hen))]
      rw [hcons]
    have hfilter_eq : topology.filter (fun x => !((n :: rest).contains x.name)) =
        (topology.erase e).filter (fun x => !(rest.contains x.name)) := by
      rw [herase, hdecomp, List.filter_append, List.filter_append, List.filter_cons]
      have hedrop : (!((n :: rest).contains e.name)) = false := by
        simp [hen, List.contains_cons]
      rw [hedrop]
      simp only [Bool.false_eq_true, if_false]
      have hcongr : ∀ (l : List ServiceEntry), (∀ x ∈ l, x.name ≠ n) →
          l.filter (fun x => !((n :: rest).contains x.name)) =
          l.filter (fun x => !(rest.contains x.name)) := by
        intro l hl
        apply List.filter_congr
        intro x hx
        have hne : (x.name == n) = false := by
          rw [beq_eq_false_iff_ne]
          exact hl x hx
        simp only [List.contains_cons, hne, Bool.false_or]
      rw [hcongr l₁ (fun x hx => hnames_ne x (List.mem_append.mpr (Or.inl hx))),
        hcongr l₂ (fun x hx => hnames_ne x (List.mem_append.mpr (Or.inr hx)))]
    have hmap_eq : (rest.map fun m => (svcMapGet topology m).getD default) =
        rest.map fun m => (svcMapGet (topology.erase e) m).getD default := by
      apply List.map_congr_left
      intro m hm
      rw [hlookup_eq m hm]
    have hexist' : ∀ m ∈ rest, ∃ f ∈ topology.erase e, f.name = m := by
      intro m hm
      obtain ⟨f, hfT, hfm⟩ := hex m (List.mem_cons_of_mem _ hm)
      have hfe : f ≠ e := by
        intro hfe
        have hmn : m = n := by rw [← hfm, hfe, hen]
        exact hndN.1 (hmn ▸ hm)
      exact ⟨f, (List.mem_erase_of_ne hfe).mpr hfT, hfm⟩
    have hperm' := ih (topology.erase e) hnodup' hndN.2 hexist'
    have hstep : ((n :: rest).map fun m => (svcMapGet topology m).getD default)
          ++ topology.filter (fun x => !((n :: rest).contains x.name))
        = e :: ((rest.map fun m => (svcMapGet (topology.erase e) m).getD default)
            ++ (topology.erase e).filter (fun x => !(rest.contains x.name))) := by
      simp only [List.map_cons, hget, hfilter_eq, hmap_eq]
      rfl
    rw [hstep]
    exact (hperm'.cons e).trans (List.perm_cons_erase heT).symm

/-- C10 (amended): provided the stored topology's service names are pairwise
distinct — the invariant `orbit service add` maintains — setting an order
whose names all exist and contain no duplicates yields a permutation of the
previous topology: the named services first, in the given order, then the
unnamed services in their original relative order. An unknown or duplicated
name yields an error, and `setTopologyOrder` then returns before
`config.Save`, leaving the stored configuration unchanged. -/
theorem C10_topology_order_permutation :
    (∀ (projectName : String) (topology : List ServiceEntry) (setVal : String),
      (topology.map ServiceEntry.name).Nodup →
      parseTopologyNames setVal ≠ [] →
      (parseTopologyNames setVal).Nodup →
      (∀ n ∈ parseTopologyNames setVal, ∃ e ∈ topology, e.name = n) →
      ∃ result, setTopologyOrder projectName topology setVal = .ok result
        ∧ List.Perm result topology
        ∧ result = ((parseTopologyNames setVal).map
              fun n => (svcMapGet topology n).getD default)
            ++ topology.filter (fun e => !((parseTopologyNames setVal).contains e.name)))
    ∧ (∀ (projectName : String) (topology : List ServiceEntry) (setVal : String),
      parseTopologyNames setVal ≠ [] →
      ((∃ n ∈ parseTopologyNames setVal, ∀ e ∈ topology, e.name ≠ n)
        ∨ ¬(parseTopologyNames setVal).Nodup) →
      ∃ msg, setTopologyOrder projectName topology setVal = .error msg) := by
  constructor
  · intro projectName topology setVal hndT hne hndN hex
    have hfind : (parseTopologyNames setVal).find?
        (fun n => (svcMapGet topology n).isNone) = none := by
      rw [List.find?_eq_none]
      intro n hn
      obtain ⟨e, heT, hen⟩ := hex n hn
      rw [svcMapGet_unique hndT heT hen]
      simp
    refine ⟨_, ?_, named_filter_perm _ _ hndT hndN hex, rfl⟩
    simp only [setTopologyOrder, if_neg hne, hfind]
    rw [reorderNamed_ok topology _ [] hndN (by simp)]
    rfl
  · intro projectName topology setVal hne hbad
    simp only [setTopologyOrder, if_neg hne]
    cases hfind : (parseTopologyNames setVal).find?
        (fun n => (svcMapGet topology n).isNone) with
    | some n => exact ⟨_, rfl⟩
    | none =>
      rcases hbad with ⟨n, hn, hnone⟩ | hdup
      · exfalso
        have hfalse := List.find?_eq_none.mp hfind n hn
        rw [(svcMapGet_eq_none_iff topology n).mpr hnone] at hfalse
        simp at hfalse
      · obtain ⟨msg, hmsg⟩ := reorderNamed_error topology _ [] (fun hc => hdup hc.1)
        rw [hmsg]
        exact ⟨msg, rfl⟩

/-- Witness for C10 (amended): `--set "api -> frontend"` over the topology
`frontend, api, db` yields `api, frontend, db`, a permutation. -/
theorem C10_topology_order_permutation_witness :
    ∃ result, setTopologyOrder "myshop"
        [{ name := "frontend", platform := "vercel", id := "p1" },
         { name := "api", platform := "koyeb", id := "s1" },
         { name := "db", platform := "supabase", id := "d1" }] "api -> frontend"
        = .ok result
      ∧ List.Perm result
          [{ name := "frontend", platform := "vercel", id := "p1" },
           { name := "api", platform := "koyeb", id := "s1" },
           { name := "db", platform := "supabase", id := "d1" }]
      ∧ result = ((parseTopologyNames "api -> frontend").map
            fun n => (svcMapGet
              [{ name := "frontend", platform := "vercel", id := "p1" },
               { name := "api", platform := "koyeb", id := "s1" },
               { name := "db", platform := "supabase", id := "d1" }] n).getD default)
          ++ [{ name := "frontend", platform := "vercel", id := "p1" },
              { name := "api", platform := "koyeb", id := "s1" },
              { name := "db", platform := "supabase", id := "d1" }].filter
            (fun e => !((parseTopologyNames "api -> frontend").contains e.name)) :=
  C10_topology_order_permutation.1 "myshop"
    [{ name := "frontend", platform := "vercel", id := "p1" },
     { name := "api", platform := "koyeb", id := "s1" },
     { name := "db", platform := "supabase", id := "d1" }] "api -> frontend"
    (by decide) (by decide) (by decide) (by decide)

/-! ### Crypto lemmas -/

/-- An `xor8` result is always a byte. -/
theorem xor8_lt (a b : Nat) : xor8 a b < 256 :=
  Nat.mod_lt _ (by norm_num)

/-- Every element of a `zipWith` is an image of the function. -/
theorem mem_zipWith_exists {f : Nat → Nat → Nat} :
    ∀ {l₁ l₂ : List Nat} {x : Nat}, x ∈ List.zipWith f l₁ l₂ → ∃ a b, x = f a b := by
  intro l₁
  induction l₁ with
  | nil => intro l₂ x hx; cases hx
  | cons a t ih =>
    intro l₂ x hx
    cases l₂ with
    | nil => cases hx
    | cons b t₂ =>
      rcases List.mem_cons.mp hx with rfl | hx'
      · exact ⟨a, b, rfl⟩
      · exact ih hx'

/-- Byte-wise XOR of two lists produces bytes. -/
theorem zipWith_xor8_lt (l₁ l₂ : List Nat) : ∀ x ∈ List.zipWith xor8 l₁ l₂, x < 256 := by
  intro x hx
  obtain ⟨a, b, rfl⟩ := mem_zipWith_exists hx
  exact xor8_lt a b

/-- Every byte of an AES-encrypted block is below 256 (the final round key
addition is a byte-wise XOR). -/
theorem encryptBlock_mem_lt (key block : List Nat) :
    ∀ x ∈ encryptBlock key block, x < 256 := by
  intro x hx
  simp only [encryptBlock, addRoundKey] at hx
  obtain ⟨a, b, rfl⟩ := mem_zipWith_exists hx
  exact xor8_lt a b

/-- A fold that preserves a predicate preserves it to the end, with access to
membership of the folded element. -/
theorem foldl_preserve {α β : Type} (P : β → Prop) (f : β → α → β) :
    ∀ (l : List α) (init : β), P init → (∀ b a, a ∈ l → P b → P (f b a)) →
      P (l.foldl f init) := by
  intro l
  induction l with
  | nil => intro init h0 _; exact h0
  | cons a t ih =>
    intro init h0 hstep
    exact ih (f init a) (hstep init a (List.mem_cons_self _ _) h0)
      fun b x hx hb => hstep b x (List.mem_cons_of_mem _ hx) hb

/-- A fold that appends one element per step grows by the folded length. -/
theorem foldl_append_one_length {α β : Type} (g : List α → β → α) :
    ∀ (l : List β) (init : List α),
      (l.foldl (fun w a => w ++ [g w a]) init).length = init.length + l.length := by
  intro l
  induction l with
  | nil => intro init; rfl
  | cons a t ih =>
    intro init
    rw [List.foldl_cons, ih]
    simp
    omega

/-- Reading `getD` with an all-`P` list and a `P` default satisfies `P`. -/
theorem getD_length_four {l : List (List Nat)} (h : ∀ w ∈ l, w.length = 4) (i : Nat) :
    (l.getD i [0, 0, 0, 0]).length = 4 := by
  rcases Nat.lt_or_ge i l.length with hi | hi
  · rw [List.getD_eq_getElem l _ hi]
    exact h _ (List.getElem_mem hi)
  · rw [List.getD_eq_default l _ hi]
    rfl

/-- Rotation `rotWord` preserves length. -/
theorem rotWord_length (l : List Nat) : (rotWord l).length = l.length := by
  unfold rotWord
  split <;> rfl

/-- Every word of the key schedule has four bytes. -/
theorem keyExpansion_words (key : List Nat) (h4 : ∀ c ∈ chunks4 key, c.length = 4) :
    ∀ w ∈ keyExpansion key, w.length = 4 := by
  simp only [keyExpansion]
  refine foldl_preserve (fun ws : List (List Nat) => ∀ w ∈ ws, w.length = 4) _ _ _ h4 ?_
  · intro ws idx _ hws w hw
    rcases List.mem_append.mp hw with hw' | hw'
    · exact hws w hw'
    · rw [List.mem_singleton.mp hw']
      have htemp0 := getD_length_four hws (key.length / 4 + idx - 1)
      have htemp : (if (key.length / 4 + idx) % (key.length / 4) = 0 then
            xorWord (subWord (rotWord (ws.getD (key.length / 4 + idx - 1) [0, 0, 0, 0])))
              [rconByte ((key.length / 4 + idx) / (key.length / 4)), 0, 0, 0]
          else if 6 < key.length / 4 ∧ (key.length / 4 + idx) % (key.length / 4) = 4 then
            subWord (ws.getD (key.length / 4 + idx - 1) [0, 0, 0, 0])
          else ws.getD (key.length / 4 + idx - 1) [0, 0, 0, 0]).length = 4 := by
        split
        · simp only [xorWord, List.length_zipWith, subWord, List.length_map,
            rotWord_length, htemp0, List.length_cons, List.length_nil]
          decide
        · split
          · simp only [subWord, List.length_map]
            exact htemp0
          · exact htemp0
      have hlen2 := getD_length_four hws (key.length / 4 + idx - key.length / 4)
      simp only [xorWord] at htemp
      simp only [xorWord, List.length_zipWith, hlen2, htemp, Nat.min_self]

/-- Splitting `chunks4` of a list whose length is a multiple of four: all words have
four bytes, and there are `length / 4` of them. -/
theorem chunks4_spec : ∀ (l : List Nat), l.length % 4 = 0 →
    (∀ c ∈ chunks4 l, c.length = 4) ∧ (chunks4 l).length = l.length / 4 := by
  intro l
  induction l using chunks4.induct with
  | case1 a b c d rest ih =>
    intro hmod
    simp only [List.length_cons] at hmod
    have hmod' : rest.length % 4 = 0 := by omega
    obtain ⟨ih1, ih2⟩ := ih hmod'
    constructor
    · intro w hw
      rcases List.mem_cons.mp hw with rfl | hw'
      · rfl
      · exact ih1 w hw'
    · simp only [chunks4, List.length_cons, ih2]
      omega
  | case2 =>
    intro _
    exact ⟨(by intro c hc; cases hc), rfl⟩
  | case3 l h1 h2 =>
    intro hmod
    exfalso
    rcases l with _ | ⟨a, _ | ⟨b, _ | ⟨c, _ | ⟨d, rest⟩⟩⟩⟩
    · exact h2 rfl
    · simp at hmod
    · simp at hmod
    · simp only [List.length_cons, List.length_nil] at hmod
      omega
    · exact h1 a b c d rest rfl

/-- Flattening words of four bytes multiplies the count by four. -/
theorem flatten_words_length {ws : List (List Nat)} (h : ∀ w ∈ ws, w.length = 4) :
    ws.flatten.length = 4 * ws.length := by
  induction ws with
  | nil => rfl
  | cons w t ih =>
    rw [List.flatten_cons, List.length_append, h w (List.mem_cons_self _ _),
      ih fun x hx => h x (List.mem_cons_of_mem _ hx)]
    simp
    omega

/-- The `shiftRows` step always yields sixteen bytes. -/
theorem shiftRows_length (state : List Nat) : (shiftRows state).length = 16 := by
  simp [shiftRows]

/-- The number of round-key words of the schedule. -/
theorem keyExpansion_length (key : List Nat) (h4 : key.length % 4 = 0) :
    (keyExpansion key).length = 4 * (key.length / 4 + 6 + 1) := by
  simp only [keyExpansion]
  rw [foldl_append_one_length, (chunks4_spec key h4).2, List.length_range]
  omega

/-- An AES-256 block encryption yields sixteen bytes. -/
theorem encryptBlock_length (key block : List Nat) (hkey : key.length = 32) :
    (encryptBlock key block).length = 16 := by
  have h4 : key.length % 4 = 0 := by rw [hkey]
  have hwords := keyExpansion_words key (chunks4_spec key h4).1
  have hcount := keyExpansion_length key h4
  rw [hkey] at hcount
  norm_num at hcount
  simp only [encryptBlock, addRoundKey, List.length_zipWith, shiftRows_length, hkey]
  have hlast : (((keyExpansion key).drop (4 * (32 / 4 + 6))).take 4).flatten.length = 16 := by
    rw [flatten_words_length fun w hw =>
      hwords w (List.mem_of_mem_drop (List.mem_of_mem_take hw))]
    rw [List.length_take, List.length_drop, hcount]
    norm_num
  rw [hlast]
  norm_num

/-- The counter increment `inc32` preserves the sixteen-byte counter shape. -/
theorem inc32_length (counter : List Nat) (h : counter.length = 16) :
    (inc32 counter).length = 16 := by
  simp [inc32, natToBytesBE, List.length_take, h]

/-- The CTR keystream consists of `16 · n` bytes. -/
theorem ctrKeyStream_length (key : List Nat) (hkey : key.length = 32) :
    ∀ (n : Nat) (counter : List Nat), (ctrKeyStream key counter n).length = 16 * n := by
  intro n
  induction n with
  | zero => intro counter; rfl
  | succ m ih =>
    intro counter
    simp only [ctrKeyStream, List.length_append, encryptBlock_length key counter hkey, ih]
    omega

/-- Every keystream byte is below 256. -/
theorem ctrKeyStream_mem_lt (key : List Nat) :
    ∀ (n : Nat) (counter : List Nat), ∀ x ∈ ctrKeyStream key counter n, x < 256 := by
  intro n
  induction n with
  | zero => intro counter x hx; cases hx
  | succ m ih =>
    intro counter x hx
    rcases List.mem_append.mp hx with hx' | hx'
    · exact encryptBlock_mem_lt key counter x hx'
    · exact ih (inc32 counter) x hx'

/-- XOR-ing twice with the same keystream restores the plaintext. -/
theorem zipWith_xor8_cancel :
    ∀ (pt ks : List Nat), (∀ b ∈ pt, b < 256) → (∀ b ∈ ks, b < 256) →
      pt.length ≤ ks.length →
      List.zipWith xor8 (List.zipWith xor8 pt ks) ks = pt := by
  intro pt
  induction pt with
  | nil => intro ks _ _ _; simp
  | cons a t ih =>
    intro ks hpt hks hlen
    cases ks with
    | nil => simp at hlen
    | cons k kt =>
      simp only [List.zipWith_cons_cons]
      have ha : a < 256 := hpt a (List.mem_cons_self _ _)
      have hk : k < 256 := hks k (List.mem_cons_self _ _)
      have hcancel : xor8 (xor8 a k) k = a := by
        have hxk : a ^^^ k < 256 := Nat.xor_lt_two_pow (n := 8) ha hk
        simp only [xor8, Nat.mod_eq_of_lt hxk]
        rw [Nat.xor_assoc, Nat.xor_self, Nat.xor_zero, Nat.mod_eq_of_lt ha]
      rw [hcancel, ih kt (fun b hb => hpt b (List.mem_cons_of_mem _ hb))
        (fun b hb => hks b (List.mem_cons_of_mem _ hb)) (by simpa using hlen)]

/-- Decoding inverts encoding on every 6-bit group. -/
theorem b64_dec_enc : ∀ v < 64, b64DecChar (b64EncChar v) = some v := by decide

/-- Encoded characters are never the padding character. -/
theorem b64EncChar_ne_pad : ∀ v < 64, b64EncChar v ≠ '=' := by decide

/-- Standard base64 decoding inverts encoding on byte lists. -/
theorem base64_roundtrip : ∀ l : List Nat, (∀ b ∈ l, b < 256) →
    base64Decode (base64Encode l) = .ok l := by
  intro l
  induction l using base64Encode.induct with
  | case1 => intro _; rfl
  | case2 b1 =>
    intro hb
    have h1 : b1 < 256 := hb b1 (List.mem_cons_self _ _)
    simp only [base64Encode, base64Decode,
      b64_dec_enc (b1 / 4) (by omega), b64_dec_enc (b1 % 4 * 16) (by omega),
      if_pos rfl, and_self, if_true, List.nil_eq, Except.ok.injEq, List.cons.injEq, and_true]
    omega
  | case3 b1 b2 =>
    intro hb
    have h1 : b1 < 256 := hb b1 (by simp)
    have h2 : b2 < 256 := hb b2 (by simp)
    simp only [base64Encode, base64Decode,
      b64_dec_enc (b1 / 4) (by omega), b64_dec_enc (b1 % 4 * 16 + b2 / 16) (by omega),
      b64_dec_enc (b2 % 16 * 4) (by omega),
      if_neg (b64EncChar_ne_pad (b2 % 16 * 4) (by omega)),
      if_pos rfl, and_self, if_true, Except.ok.injEq, List.cons.injEq, and_true]
    constructor <;> omega
  | case4 b1 b2 b3 rest ih =>
    intro hb
    have h1 : b1 < 256 := hb b1 (by simp)
    have h2 : b2 < 256 := hb b2 (by simp)
    have h3 : b3 < 256 := hb b3 (by simp)
    have ihr := ih fun b hbm => hb b (by simp [hbm])
    simp only [base64Encode, base64Decode,
      b64_dec_enc (b1 / 4) (by omega), b64_dec_enc (b1 % 4 * 16 + b2 / 16) (by omega),
      b64_dec_enc (b2 % 16 * 4 + b3 / 64) (by omega), b64_dec_enc (b3 % 64) (by omega),
      if_neg (b64EncChar_ne_pad (b2 % 16 * 4 + b3 / 64) (by omega)),
      if_neg (b64EncChar_ne_pad (b3 % 64) (by omega)), ihr, Except.bind, bind,
      Except.ok.injEq, List.cons.injEq, and_true]
    refine ⟨by omega, by omega, by omega⟩

/-- Length of a fixed-width big-endian encoding. -/
theorem natToBytesBE_length (len v : Nat) : (natToBytesBE len v).length = len := by
  simp [natToBytesBE]

/-- The GCM tag is sixteen bytes. -/
theorem gcmTag_length (key nonce ct : List Nat) (hkey : key.length = 32) :
    (gcmTag key nonce ct).length = 16 := by
  simp only [gcmTag, List.length_zipWith, encryptBlock_length key _ hkey,
    natToBytesBE_length, Nat.min_self]

/-- Every tag byte is below 256. -/
theorem gcmTag_mem_lt (key nonce ct : List Nat) : ∀ b ∈ gcmTag key nonce ct, b < 256 := by
  intro b hb
  simp only [gcmTag] at hb
  exact zipWith_xor8_lt _ _ b hb

/-- GCM `Open` inverts `Seal`: the sealed message splits into the nonce and a
payload that opens back to the plaintext, all its bytes within range. -/
theorem seal_open_roundtrip (key nonce pt : List Nat) (hkey : key.length = 32)
    (hnlen : nonce.length = 12) (hnlt : ∀ b ∈ nonce, b < 256)
    (hplt : ∀ b ∈ pt, b < 256) :
    (gcmSeal key nonce pt).take 12 = nonce
    ∧ gcmOpen key nonce ((gcmSeal key nonce pt).drop 12) = .ok pt
    ∧ (∀ b ∈ gcmSeal key nonce pt, b < 256)
    ∧ 12 ≤ (gcmSeal key nonce pt).length := by
  set KS := ctrKeyStream key (inc32 (nonce ++ [0, 0, 0, 1])) ((pt.length + 15) / 16) with hKS
  set CT := List.zipWith xor8 pt KS with hCT
  set TAG := gcmTag key nonce CT with hTAG
  have hKSlen : KS.length = 16 * ((pt.length + 15) / 16) := by
    rw [hKS]
    exact ctrKeyStream_length key hkey _ _
  have hKSlt : ∀ b ∈ KS, b < 256 := by
    rw [hKS]
    exact ctrKeyStream_mem_lt key _ _
  have hptle : pt.length ≤ KS.length := by
    rw [hKSlen]
    omega
  have hctlen : CT.length = pt.length := by
    rw [hCT, List.length_zipWith]
    omega
  have htaglen : TAG.length = 16 := by
    rw [hTAG]
    exact gcmTag_length key nonce CT hkey
  have hsealEq : gcmSeal key nonce pt = nonce ++ (CT ++ TAG) := by
    simp only [gcmSeal]
    rw [List.append_assoc, ← hKS, ← hCT, ← hTAG]
  refine ⟨?_, ?_, ?_, ?_⟩
  · rw [hsealEq]
    exact List.take_left' hnlen
  · rw [hsealEq, List.drop_left' hnlen]
    simp only [gcmOpen]
    have hlen : (CT ++ TAG).length = CT.length + 16 := by
      rw [List.length_append, htaglen]
    rw [if_neg (by omega)]
    have hsub : (CT ++ TAG).length - 16 = CT.length := by omega
    rw [hsub, List.take_left, List.drop_left]
    rw [if_pos hTAG.symm]  -- hmm direction: condition TAG = gcmTag key nonce CT
    rw [hctlen, ← hKS, hCT]
    rw [zipWith_xor8_cancel pt KS hplt hKSlt hptle]
  · rw [hsealEq]
    intro b hb
    rcases List.mem_append.mp hb with hb' | hb'
    · exact hnlt b hb'
    · rcases List.mem_append.mp hb' with hb'' | hb''
      · rw [hCT] at hb''
        exact zipWith_xor8_lt _ _ b hb''
      · rw [hTAG] at hb''
        exact gcmTag_mem_lt key nonce CT b hb''
  · rw [hsealEq, List.length_append, hnlen]
    omega

/-- The `"ENC:"` header is its own prefix in an encoded output. -/
theorem encHeader_isPrefixOf_append (l : List Char) :
    encHeader.isPrefixOf (encHeader ++ l) = true := by
  simp [encHeader, List.isPrefixOf]

/-- C9: token encryption round-trips. For every 32-byte key, every 12-byte
nonce (drawn randomly inside Go's `Encrypt`, passed explicitly here), and
every plaintext byte string — including the empty string and multi-byte
UTF-8, since Go strings are plain byte sequences — decrypting an encrypted
token restores the plaintext; every `Encrypt` output starts with the
`"ENC:"` marker, so `IsEncrypted` holds of it; and `Decrypt` rejects any
input lacking the marker. -/
theorem C9_encrypt_decrypt_roundtrip :
    (∀ key nonce pt : List Nat,
      key.length = 32 → nonce.length = 12 → (∀ b ∈ nonce, b < 256) →
      (∀ b ∈ pt, b < 256) →
      ∃ out, Encrypt key nonce pt = .ok out
        ∧ IsEncrypted out = true
        ∧ out.take 4 = encHeader
        ∧ Decrypt key out = .ok pt)
    ∧ (∀ (key : List Nat) (s : List Char), IsEncrypted s = false →
      Decrypt key s = .error "invalid encrypted string: missing \x22ENC:\x22 prefix") := by
  constructor
  · intro key nonce pt hkey hnlen hnlt hplt
    have hvk : validKeySize key.length = true := by
      simp [validKeySize, hkey]
    obtain ⟨htake12, hopen, hsealt, hlen12⟩ :=
      seal_open_roundtrip key nonce pt hkey hnlen hnlt hplt
    refine ⟨encHeader ++ base64Encode (gcmSeal key nonce pt), ?_, ?_, ?_, ?_⟩
    · simp [Encrypt, hvk]
    · exact encHeader_isPrefixOf_append _
    · exact List.take_left' rfl
    · have hnl : ¬ (gcmSeal key nonce pt).length < 12 := by omega
      simp only [Decrypt, encHeader_isPrefixOf_append, if_true]
      rw [show (encHeader ++ base64Encode (gcmSeal key nonce pt)).drop 4
          = base64Encode (gcmSeal key nonce pt) from List.drop_left' rfl]
      rw [base64_roundtrip _ hsealt]
      simp [hvk, hnl, htake12, hopen]
  · intro key s hnp
    simp only [Decrypt]
    rw [if_neg ?_]
    intro h
    rw [IsEncrypted] at hnp
    rw [h] at hnp
    cases hnp

/-- Witness for C9: a concrete 32-byte key, 12-byte nonce, and the UTF-8
bytes of `"helloé"` (multi-byte). -/
theorem C9_encrypt_decrypt_roundtrip_witness :
    ∃ out, Encrypt (List.replicate 32 7) (List.replicate 12 3)
        [104, 101, 108, 108, 111, 195, 169] = .ok out
      ∧ IsEncrypted out = true
      ∧ out.take 4 = encHeader
      ∧ Decrypt (List.replicate 32 7) out = .ok [104, 101, 108, 108, 111, 195, 169] :=
  C9_encrypt_decrypt_roundtrip.1 (List.replicate 32 7) (List.replicate 12 3)
    [104, 101, 108, 108, 111, 195, 169]
    (by decide) (by decide) (by decide) (by decide)

end Orbit
